import Mathlib

/-!
Verification of the minizfvr real-time tail-tracking pipeline.

This file gives a shallow embedding of the core of the repository:

* the frame codec (`encode_frame_to_array` / `decode_array_to_frame`
  from `minizfvr/utils.py`),
* the center-of-mass tail-tracking algorithm
  (`center_of_mass_based_tracking` / `find_tip_with_com` from
  `minizfvr/utils.py`),
* the tracking-process iteration and its shared-memory writes
  (`TrackerObject.continuously_track_tail` and
  `TrackerObject.send_angle_through_pipe` from
  `dev/trailtracker_dev_v01/tracker.py`),
* the acquisition loop's timestamp-queue push
  (`Camera.continuously_acquire_frames` from `minizfvr/minizftt/camera.py`),
* the swim estimator (`Estimator` from `minizfvr/minizfstim/estimator.py`),

and proves or refutes the specified properties of these components.

Modelling conventions:

* NumPy `uint8` buffers are lists of naturals; stores reduce mod 256.
* Floating-point arithmetic is idealised as real arithmetic.  The IEEE
  special value NaN, which the tracking code can produce via `0 * inf`
  when an intensity centroid coincides exactly with a segment base, is
  modelled explicitly by `Option ℝ` (`none` = NaN); the Python-level
  exceptions (`ValueError` from `int(nan)`, broadcast errors, index
  errors) are modelled by `Except`/`Option` error results.
-/

open Classical

namespace MiniZFVR

/-! ## Frame codec (minizfvr/utils.py, encode_frame_to_array / decode_array_to_frame)

A frame is a 2-D grid of 8-bit intensity samples, stored row-major.
`encode_frame_to_array img arr` models

    arr[:img.size] = img.ravel()
    arr[-4] = img.shape[0] // 255
    arr[-3] = img.shape[0] % 255
    arr[-2] = img.shape[1] // 255
    arr[-1] = img.shape[1] % 255

over a uint8 array `arr`.  NumPy raises a broadcast `ValueError` when
`img.size > len(arr)` (before any write) and an `IndexError` on the
trailer stores when `len(arr) < 4`; both failure modes are `none`.
Stores into the uint8 array wrap mod 256.
-/

/-- A 2-D uint8 frame: `rows × cols` pixels stored row-major in `pix`.
A well-formed frame has `pix.length = rows * cols` and entries below 256;
well-formedness is carried as hypotheses where needed. -/

structure Frame where
  rows : ℕ
  cols : ℕ
  pix : List ℕ
deriving DecidableEq

/-- Model of `encode_frame_to_array(img, arr)`: copy the raveled pixels
into the front of `arr`, then overwrite the last four bytes with the
base-255 encoded shape.  `none` models the NumPy exception (broadcast
error when the frame has more pixels than the buffer, index error when
the buffer has fewer than 4 bytes). -/

def encode_frame_to_array (img : Frame) (arr : List ℕ) : Option (List ℕ) :=
  if img.rows * img.cols ≤ arr.length ∧ 4 ≤ arr.length then
    some (((img.pix ++ arr.drop (img.rows * img.cols)).take (arr.length - 4)) ++
      [img.rows / 255 % 256, img.rows % 255 % 256, img.cols / 255 % 256, img.cols % 255 % 256])
  else none

/-- Model of `decode_array_to_frame(arr)`: read the two base-255 byte
pairs from the last four bytes, then reshape the leading `rows*cols`
bytes.  `none` models the `IndexError` when the buffer has fewer than 4
bytes and the reshape `ValueError` when the buffer holds fewer than
`rows*cols` bytes. -/

def decode_array_to_frame (arr : List ℕ) : Option Frame :=
  if 4 ≤ arr.length then
    let rows := arr.getD (arr.length - 4) 0 * 255 + arr.getD (arr.length - 3) 0
    let cols := arr.getD (arr.length - 2) 0 * 255 + arr.getD (arr.length - 1) 0
    if rows * cols ≤ arr.length then some ⟨rows, cols, arr.take (rows * cols)⟩ else none
  else none

/-! ### Codec lemmas and claims C1, C5 -/

/-- The concrete 2×3 frame used to exercise the codec's capacity handling. -/

def c5Frame : Frame := ⟨2, 3, [10, 20, 30, 40, 50, 60]⟩

/-- A destination buffer of capacity 8: large enough for the six pixels of
`c5Frame` but not for pixels plus the 4-byte trailer. -/

def c5Arr : List ℕ := [9, 9, 9, 9, 9, 9, 9, 9]

/-! ## Acquisition loop and the timestamp queue
(minizfvr/minizftt/camera.py, Camera.continuously_acquire_frames)

The loop body is

    fetch_success, frame, timestamp = self.fetch_image()
    if fetch_success:
        encode_frame_to_array(frame, frame_array)
        timestamp_queue.put(timestamp)

where `timestamp_queue` is a bounded `multiprocessing.Queue` (the GUI main
process creates it with `maxsize=10`). -/

/-- Semantics of `multiprocessing.Queue.put(item)` with the default
`block=True, timeout=None`: when the bounded queue has free space the item
is appended; on a full queue the call blocks until a consumer frees space,
modelled by `none` (the call does not return within this step). -/

def queue_put {α : Type} (maxsize : ℕ) (q : List α) (x : α) : Option (List α) :=
  if q.length < maxsize then some (q ++ [x]) else none

/-- Outcome of one iteration of the acquisition loop body: the iteration
completed (with the new queue and frame-region contents), the iteration is
blocked inside `Queue.put`, or the frame encode raised. -/

inductive AcqStep where
  | completed (queue : List ℚ) (frame_array : List ℕ)
  | blocked_on_put (frame_array : List ℕ)
  | encode_error
deriving DecidableEq

/-- One iteration of the body of `Camera.continuously_acquire_frames`: on a
successful fetch, encode the frame into the shared region and push the
timestamp with a blocking `put`; on a failed fetch do nothing. -/

def acquisition_step (maxsize : ℕ) (queue : List ℚ) (frame_array : List ℕ)
    (fetch_success : Bool) (frame : Frame) (timestamp : ℚ) : AcqStep :=
  if fetch_success then
    match encode_frame_to_array frame frame_array with
    | none => .encode_error
    | some arr' =>
      match queue_put maxsize queue timestamp with
      | some q' => .completed q' arr'
      | none => .blocked_on_put arr'
  else .completed queue frame_array

/-! ## Cross-process channel state of the tracking process
(dev/trailtracker_dev_v01/tracker.py)

`TrackerObject` keeps `self.conn` (the accepted connection or `None`), the
`connection_lost_event` flag read by the GUI, and the
`attempt_connection_event` flag set by the GUI's Connect button.  The while
loop attempts `listener.accept()` only when the attempt flag is set and no
connection exists, then clears the attempt flag; `send_angle_through_pipe`
catches `ConnectionError`, clears `self.conn` and sets the lost flag. -/

/-- Connection-relevant state of the tracking process: whether `self.conn`
is non-`None`, and the two cross-process event flags. -/

structure TrackerConn where
  conn : Bool
  connection_lost_event : Bool
  attempt_connection_event : Bool
deriving DecidableEq

/-- Model of `TrackerObject.send_angle_through_pipe` (lines 156–167):
when connected, a send that raises `ConnectionError` (`send_fails`) clears
the connection handle and sets the connection-lost flag; otherwise the
state is unchanged.  The payload `(timestamp, d_angle)` does not affect
the connection state and is omitted. -/

def send_angle_through_pipe (s : TrackerConn) (send_fails : Bool) : TrackerConn :=
  if s.conn then
    if send_fails then { s with conn := false, connection_lost_event := true }
    else s
  else s

/-- Model of the connection phase at the top of the tracking while loop
(lines 72–81): attempt `listener.accept()` only when the attempt flag is
set and no connection exists (`accept_ok` tells whether the accept
succeeded or raised `ConnectionError`), then clear the attempt flag.
Returns the new state and whether an accept was attempted. -/

def connection_phase (s : TrackerConn) (accept_ok : Bool) : TrackerConn × Bool :=
  if s.attempt_connection_event ∧ ¬ s.conn then
    (if accept_ok then { s with conn := true, attempt_connection_event := false }
     else { s with connection_lost_event := true, attempt_connection_event := false }, true)
  else ({ s with attempt_connection_event := false }, false)

/-- One tracking-loop iteration projected onto connection state: the
connection phase, then — when a timestamp arrived and tracking ran — the
send over the pipe. -/

def loop_connection_step (s : TrackerConn) (accept_ok frame_arrives send_fails : Bool) :
    TrackerConn × Bool :=
  let t := connection_phase s accept_ok
  (if frame_arrives then send_angle_through_pipe t.1 send_fails else t.1, t.2)

/-- Run of consecutive tracking-loop iterations (connection projection);
the boolean records whether any iteration attempted an accept. -/

def loop_connection_run (s : TrackerConn) : List (Bool × Bool × Bool) → TrackerConn × Bool
  | [] => (s, false)
  | (a, f, sf) :: rest =>
    let t := loop_connection_step s a f sf
    let r := loop_connection_run t.1 rest
    (r.1, t.2 || r.2)

/-! ## Center-of-mass tail tracking
(minizfvr/utils.py, center_of_mass_based_tracking / find_tip_with_com)

Floating point is idealised as ℝ.  The one place where IEEE special
values matter is the rescaling step

    length_ratio = lseg / np.sqrt((com_x-bx)**2 + (com_y-by)**2)
    new_dx = (com_x - bx) * length_ratio

when the centroid coincides exactly with the segment base: the division
yields `inf` (or `nan` for `lseg = 0`), and `0 * inf = nan`, so all four
returned values are NaN.  NaN is modelled by `none : Option ℝ`.  On the
next loop iteration `int(np.clip(nan + ... ))` raises `ValueError`; a
call of `find_tip_with_com` whose positional inputs are NaN is therefore
modelled as `Except.error ()`. -/

/-- A NumPy float64 value: `some x` a finite real, `none` the NaN produced
by the degenerate rescaling step. -/

abbrev RN := Option ℝ

/-- A 2-D intensity image of shape `(H, W)`; `pix y x` reads row `y`,
column `x` (uint8 contents idealised as reals).  The tracking code only
evaluates `pix` inside the clipped window `[0,W) × [0,H)`. -/

structure Img where
  H : ℕ
  W : ℕ
  pix : ℤ → ℤ → ℝ

/-- Model of `int(np.clip(v, 0, bound))`: clip to `[0, bound]` then
truncate (= floor, as the clipped value is nonnegative). -/

noncomputable def clip_int (v : ℝ) (bound : ℕ) : ℤ :=
  ⌊max 0 (min v (bound : ℝ))⌋

/-- Sum of `f x y` over the integer grid `[x0, x1) × [y0, y1)` — the
model of a NumPy reduction over the meshgrid window. -/

noncomputable def winSum (x0 x1 y0 y1 : ℤ) (f : ℤ → ℤ → ℝ) : ℝ :=
  ((List.range (y1 - y0).toNat).map (fun j =>
    ((List.range (x1 - x0).toNat).map (fun i => f (x0 + i) (y0 + j))).sum)).sum

/-- Model of `np.sum(in_radius_mask * wt * search_slice)` over the window
clipped to the image bounds, for the guess point `(gx, gy)`:
`wt = 1` gives `total_intensity`, `wt = XX` gives `summed_ix`, `wt = YY`
gives `summed_iy`. -/

noncomputable def maskedSum (image : Img) (gx gy radius : ℝ) (wt : ℤ → ℤ → ℝ) : ℝ :=
  winSum (clip_int (gx - radius) image.W) (clip_int (gx + radius) image.W)
    (clip_int (gy - radius) image.H) (clip_int (gy + radius) image.H)
    (fun x y => if ((x : ℝ) - gx) ^ 2 + ((y : ℝ) - gy) ^ 2 ≤ radius ^ 2
      then wt x y * image.pix y x else 0)

/-- Total intensity `total_intensity` of the circular mask around the guess point. -/

noncomputable def total_intensity (image : Img) (gx gy radius : ℝ) : ℝ :=
  maskedSum image gx gy radius (fun _ _ => 1)

/-- x-coordinate of the intensity centroid (`summed_ix / total_intensity`). -/

noncomputable def com_x (image : Img) (gx gy radius : ℝ) : ℝ :=
  maskedSum image gx gy radius (fun x _ => (x : ℝ)) / total_intensity image gx gy radius

/-- y-coordinate of the intensity centroid (`summed_iy / total_intensity`). -/

noncomputable def com_y (image : Img) (gx gy radius : ℝ) : ℝ :=
  maskedSum image gx gy radius (fun _ y => (y : ℝ)) / total_intensity image gx gy radius

/-- Distance `np.sqrt((com_x - bx)**2 + (com_y - by)**2)` from the current
segment base to the centroid. -/

noncomputable def com_dist (image : Img) (gx gy radius bx by' : ℝ) : ℝ :=
  Real.sqrt ((com_x image gx gy radius - bx) ^ 2 + (com_y image gx gy radius - by') ^ 2)

/-- Model of `np.arctan2(y, x)` (principal angle of the point `(x, y)`). -/

noncomputable def arctan2 (y x : ℝ) : ℝ := Complex.arg ⟨x, y⟩

/-- Lifts `np.arctan2` to possibly-NaN inputs: NaN in, NaN out. -/

noncomputable def rn_atan2 : RN → RN → RN
  | some y, some x => some (arctan2 y x)
  | _, _ => none

/-- The Python test `bx < 0` on a float that may be NaN (`nan < 0` is
false). -/

def is_neg (x : RN) : Prop := ∃ v, x = some v ∧ v < 0

/-- Model of `find_tip_with_com(image, bx, by, dx, dy, lseg, radius)`.

With finite arguments: clip the square window of half-width `radius`
around the guess `(bx+dx, by+dy)` to the image bounds; return the
sentinel `(-1, -1, 0, 0)` when the window is degenerate (`x0 == x1 and
y0 == y1`) or when the circular-masked total intensity is zero; otherwise
rescale the base-to-centroid vector to length `lseg`.  When the centroid
equals the base the rescaling produces NaN (`none`) in all four outputs.
A call whose positional inputs are already NaN raises `ValueError` inside
`int(np.clip(...))`, modelled by `.error ()`. -/

noncomputable def find_tip_with_com (image : Img) (bx by' dx dy : RN) (lseg radius : ℝ) :
    Except Unit (RN × RN × RN × RN) :=
  match bx, by', dx, dy with
  | some bx, some by', some dx, some dy =>
    if clip_int (bx + dx - radius) image.W = clip_int (bx + dx + radius) image.W ∧
        clip_int (by' + dy - radius) image.H = clip_int (by' + dy + radius) image.H then
      .ok (some (-1), some (-1), some 0, some 0)
    else if total_intensity image (bx + dx) (by' + dy) radius = 0 then
      .ok (some (-1), some (-1), some 0, some 0)
    else if com_dist image (bx + dx) (by' + dy) radius bx by' = 0 then
      .ok (none, none, none, none)
    else
      .ok (some (bx + (com_x image (bx + dx) (by' + dy) radius - bx) *
            (lseg / com_dist image (bx + dx) (by' + dy) radius bx by')),
          some (by' + (com_y image (bx + dx) (by' + dy) radius - by') *
            (lseg / com_dist image (bx + dx) (by' + dy) radius bx by')),
          some ((com_x image (bx + dx) (by' + dy) radius - bx) *
            (lseg / com_dist image (bx + dx) (by' + dy) radius bx by')),
          some ((com_y image (bx + dx) (by' + dy) radius - by') *
            (lseg / com_dist image (bx + dx) (by' + dy) radius bx by')))
  | _, _, _, _ => .error ()

/-- The `for i in range(n_seg)` loop of `center_of_mass_based_tracking`:
call `find_tip_with_com`, break on a negative returned base (leaving the
remaining NaN-initialised slots, modelled as `none` entries), else record
the angle `np.arctan2(dx, dy)` and the new point.  The boolean in the
result records whether the loop exited through the `break` (instrumenting
the control flow; the Python function communicates this only through the
NaN fill). -/

noncomputable def track_segments (image : Img) (radius lseg : ℝ) :
    ℕ → RN → RN → RN → RN → Except Unit (List (RN × RN) × List RN × Bool)
  | 0, _, _, _, _ => .ok ([], [], false)
  | k + 1, bx, by', dx, dy =>
    match find_tip_with_com image bx by' dx dy lseg radius with
    | .error e => .error e
    | .ok (bx', by2, dx', dy') =>
      if is_neg bx' then
        .ok (List.replicate (k + 1) (none, none), List.replicate (k + 1) none, true)
      else
        match track_segments image radius lseg k bx' by2 dx' dy' with
        | .error e => .error e
        | .ok (segs, angs, broke) =>
          .ok ((bx', by2) :: segs, rn_atan2 dx' dy' :: angs, broke)

/-- Model of `center_of_mass_based_tracking(img, base, tip, n_seg,
search_radius)`: fixed segment length `|tip - base| / n_seg`, initial
direction `(tip - base) / n_seg`, then the chaining loop.  Returns the
segment positions (length `n_seg + 1`, column 0 = `base`, unwritten
NaN-initialised slots as `none`), the per-segment angles (length `n_seg`,
unwritten slots `none`), and the break flag. -/

noncomputable def center_of_mass_based_tracking (img : Img) (base tip : ℝ × ℝ) (n_seg : ℕ)
    (search_radius : ℝ) : Except Unit (List (RN × RN) × List RN × Bool) :=
  match track_segments img search_radius
      (Real.sqrt ((tip.1 - base.1) ^ 2 + (tip.2 - base.2) ^ 2) / n_seg) n_seg
      (some base.1) (some base.2)
      (some ((tip.1 - base.1) / n_seg)) (some ((tip.2 - base.2) / n_seg)) with
  | .error e => .error e
  | .ok (segs, angs, broke) => .ok ((some base.1, some base.2) :: segs, angs, broke)

/-- Euclidean distance between two possibly-NaN points: NaN in, NaN out. -/

noncomputable def rnDist : RN × RN → RN × RN → RN
  | (some ax, some ay), (some bx, some by') =>
    some (Real.sqrt ((bx - ax) ^ 2 + (by' - ay) ^ 2))
  | _, _ => none

/-- Every consecutive pair of points in the list is at distance `lseg`. -/

def chainDist (lseg : ℝ) : List (RN × RN) → Prop
  | p :: q :: rest => rnDist p q = some lseg ∧ chainDist lseg (q :: rest)
  | _ => True

/-- The finite (non-NaN) entries of a segment-position list. -/

def finite_points (l : List (RN × RN)) : List (ℝ × ℝ) :=
  l.filterMap (fun p => match p with
    | (some a, some b) => some (a, b)
    | _ => none)

/-- The finite (non-NaN) entries of an angle list. -/

def finite_vals (l : List RN) : List ℝ := l.filterMap id

/-- An all-zero 4×4 test image. -/

def zimg : Img := ⟨4, 4, fun _ _ => 0⟩

/-- A 5×5 test image whose only bright pixel (intensity 10) sits at
row 2, column 2 — exactly on the tracking base point `(2, 2)`. -/

noncomputable def cimg : Img := ⟨5, 5, fun y x => if y = 2 ∧ x = 2 then 10 else 0⟩

/-- A 6×2 test image with bright pixels (intensity 10) at `(x, y) = (0, 2)`
and `(0, 4)`, approximating a vertical line from `(0, 0)` to `(0, 4)`. -/

noncomputable def wimg : Img := ⟨6, 2, fun y x => if x = 0 ∧ (y = 2 ∨ y = 4) then 10 else 0⟩

/-! ## The tracking-process iteration
(dev/trailtracker_dev_v01/tracker.py, TrackerObject.continuously_track_tail)

One iteration of the timestamp-triggered block (lines 94–121): run the
tracking on the preprocessed frame, compute
`d_angle = float(angles[-1] - angles[0])`, send it over the pipe, write
the segment positions into the fixed 2×10 shared array, and write
`(d_angle, timestamp)` into the angle-history ring buffer at index `ii`.
The preprocessing (line 101) and the re-encode of the processed frame
into its shared region (line 117) act only on the frame regions and are
modelled separately (`preprocess` is outside the claims;
`encode_frame_to_array` above); the iteration below takes the processed
frame as input. -/

/-- Model of the NumPy slice assignment
`current_segment[:, :n_segments+1] = segments` into the fixed-shape
`(2, 10)` shared array (one list entry per column): the slice keeps at
most 10 columns, and the assignment raises a broadcast `ValueError`
(`none`) unless the source width equals the slice width. -/

def write_segments (n_segments : ℕ) (segments : List (RN × RN)) (buf : List (RN × RN)) :
    Option (List (RN × RN)) :=
  if segments.length = min (n_segments + 1) 10 then
    some (segments ++ buf.drop (min (n_segments + 1) 10))
  else none

/-- NumPy float subtraction on possibly-NaN values: NaN in, NaN out. -/

def rnSub : RN → RN → RN
  | some a, some b => some (a - b)
  | _, _ => none

/-- The parameter snapshot fields used by the tracking iteration. -/

structure TrackParams where
  base_x : ℝ
  base_y : ℝ
  tip_x : ℝ
  tip_y : ℝ
  n_segments : ℕ
  search_area : ℝ
  angle_trace_length : ℕ

/-- The parameter snapshot used in the concrete C4 scenario: base (1,1),
tip (3,1), 2 segments, search radius 1, angle-trace length 3. -/

def c4Params : TrackParams := ⟨1, 1, 3, 1, 2, 1, 3⟩

/-- One tracking iteration (tracker.py lines 104–121) projected onto the
result writes: run `center_of_mass_based_tracking`, compute
`d_angle = angles[-1] - angles[0]` (an `IndexError` — `.error` — when the
angle array is empty, i.e. `n_segments = 0`), send `(timestamp, d_angle)`
through the pipe, write the segments into the 2×10 shared array and
`(d_angle, timestamp)` into the angle-history ring buffer at index `ii`,
then step `ii` modulo `angle_trace_length`.  Exceptions anywhere in the
block (tracking NaN crash, broadcast error, out-of-range ring index)
abort the iteration as `.error`. -/

noncomputable def track_iteration (p : TrackParams) (processed_frame : Img) (timestamp : ℝ)
    (segment_buf : List (RN × RN)) (angle_history : List (RN × ℝ)) (ii : ℕ)
    (conn : TrackerConn) (send_fails : Bool) :
    Except Unit (List (RN × RN) × List (RN × ℝ) × ℕ × TrackerConn) :=
  match center_of_mass_based_tracking processed_frame (p.base_x, p.base_y) (p.tip_x, p.tip_y)
      p.n_segments p.search_area with
  | .error e => .error e
  | .ok (segments, angles, _) =>
    match angles.getLast?, angles.head? with
    | some a_last, some a_first =>
      match write_segments p.n_segments segments segment_buf with
      | none => .error ()
      | some segment_buf' =>
        if ii < angle_history.length then
          .ok (segment_buf',
            angle_history.set ii (rnSub a_last a_first, timestamp),
            (ii + 1) % p.angle_trace_length,
            send_angle_through_pipe conn send_fails)
        else .error ()
    | _, _ => .error ()

/-! ## Swim estimator (minizfvr/minizfstim/estimator.py, class Estimator)

The estimator keeps two parallel circular buffers of timestamps and
angles (zero-initialised, `buffer_index` starting at `-1`), plus the
derived `vigor` and `bias` and the bout-detection flags.  NumPy boolean
masking over the parallel buffers is modelled by filtering the zipped
lists; `np.nanstd` / `np.nanmean` are the population standard deviation
and mean of the selected (NaN-free) samples.  (On an empty selection
NumPy returns NaN with a warning; the model returns `0` via division by
zero — no claim below touches that case.) -/

/-- State of `Estimator`: the four window/threshold parameters from the
constructor, the two circular buffers, and the mutable estimate state. -/

structure Estimator where
  vigor_window : ℝ
  bias_window : ℝ
  bias_baseline_window : ℝ
  vigor_threshold : ℝ
  timestamp_buffer : List ℝ
  angle_buffer : List ℝ
  buffer_index : ℤ
  vigor : ℝ
  bias : ℝ
  in_bout : Bool
  bout_onset_t : ℝ
  bias_calc_pending : Bool

/-- Model of `Estimator.__init__`: zero-filled buffers of length `buffer_size`,
`buffer_index = -1`, `vigor = bias = 0`, flags cleared. -/

def Estimator.init (buffer_size : ℕ)
    (vigor_window bias_window bias_baseline_window vigor_threshold : ℝ) : Estimator :=
  ⟨vigor_window, bias_window, bias_baseline_window, vigor_threshold,
    List.replicate buffer_size 0, List.replicate buffer_size 0,
    -1, 0, 0, false, 0, false⟩

/-- Python indexing `buf[i]` with a possibly negative index (the initial
`buffer_index = -1` reads the last element). -/

def pyGet (l : List ℝ) (i : ℤ) : ℝ :=
  if 0 ≤ i then l.getD i.toNat 0 else l.getD (l.length - (-i).toNat) 0

/-- Model of `Estimator.register_new_data(timestamp, angle)`: advance the circular
index and overwrite that slot of both buffers. -/

def register_new_data (s : Estimator) (timestamp angle : ℝ) : Estimator :=
  { s with
    buffer_index := (s.buffer_index + 1) % (s.timestamp_buffer.length : ℤ),
    timestamp_buffer := s.timestamp_buffer.set
      ((s.buffer_index + 1) % (s.timestamp_buffer.length : ℤ)).toNat timestamp,
    angle_buffer := s.angle_buffer.set
      ((s.buffer_index + 1) % (s.timestamp_buffer.length : ℤ)).toNat angle }

/-- NumPy boolean-mask selection `angle_buffer[p(timestamp_buffer)]` over
the zipped parallel buffers. -/

noncomputable def maskSelect (p : ℝ → Prop) : List (ℝ × ℝ) → List ℝ
  | [] => []
  | (t, a) :: rest => if p t then a :: maskSelect p rest else maskSelect p rest

/-- Model of `np.nanmean` of a NaN-free sample list. -/

noncomputable def listMean (l : List ℝ) : ℝ := l.sum / l.length

/-- Model of `np.nanstd` (population standard deviation) of a NaN-free sample list. -/

noncomputable def listStd (l : List ℝ) : ℝ :=
  Real.sqrt (listMean (l.map (fun x => (x - listMean l) ^ 2)))

/-- Model of `last_t = timestamp_buffer[buffer_index]` (line 54). -/

noncomputable def est_last_t (s : Estimator) : ℝ := pyGet s.timestamp_buffer s.buffer_index

/-- The new vigor (line 58): standard deviation of angles whose timestamp
lies within the vigor window ending at `last_t`. -/

noncomputable def est_vigor (s : Estimator) : ℝ :=
  listStd (maskSelect (fun t => est_last_t s - s.vigor_window < t)
    (s.timestamp_buffer.zip s.angle_buffer))

/-- The bout-onset condition (line 63): not currently in a bout and the
new vigor exceeds the threshold. -/

noncomputable def est_onset_cond (s : Estimator) : Prop :=
  s.in_bout = false ∧ s.vigor_threshold < est_vigor s

/-- Value of `in_bout` after the onset transition (lines 63–64). -/

noncomputable def est_in_bout1 (s : Estimator) : Bool :=
  if est_onset_cond s then true else s.in_bout

/-- Value of `bias_calc_pending` after the onset transition (line 65). -/

noncomputable def est_pending1 (s : Estimator) : Bool :=
  if est_onset_cond s then true else s.bias_calc_pending

/-- Value of `bout_onset_t` after the onset transition (line 66). -/

noncomputable def est_onset_t1 (s : Estimator) : ℝ :=
  if est_onset_cond s then est_last_t s else s.bout_onset_t

/-- Value of `in_bout` after the bout-exit transition (lines 68–69), which reads
the freshly updated vigor. -/

noncomputable def est_in_bout2 (s : Estimator) : Bool :=
  if est_vigor s < s.vigor_threshold then false else est_in_bout1 s

/-- The computed bout bias (lines 76–79): mean angle in the bias window
minus mean angle in the preceding baseline window. -/

noncomputable def est_bias_value (s : Estimator) : ℝ :=
  listMean (maskSelect (fun t => est_last_t s - s.bias_window < t)
      (s.timestamp_buffer.zip s.angle_buffer))
    - listMean (maskSelect
        (fun t => est_last_t s - s.bias_window - s.bias_baseline_window < t ∧
          t < est_last_t s - s.bias_window)
        (s.timestamp_buffer.zip s.angle_buffer))

/-- Model of `Estimator.update_swim_estimate()` (lines 48–82): update vigor, run
the bout transitions, then either compute the bias and clear the pending
flag (when pending and the bias window has elapsed since bout onset),
keep waiting (when pending, bias untouched), or — when not pending —
reset `bias` to `0.0`. -/

noncomputable def update_swim_estimate (s : Estimator) : Estimator :=
  if est_pending1 s = true then
    if est_onset_t1 s + s.bias_window < est_last_t s then
      { s with
        vigor := est_vigor s,
        in_bout := est_in_bout2 s,
        bout_onset_t := est_onset_t1 s,
        bias_calc_pending := false,
        bias := est_bias_value s }
    else
      { s with
        vigor := est_vigor s,
        in_bout := est_in_bout2 s,
        bout_onset_t := est_onset_t1 s,
        bias_calc_pending := true }
  else
    { s with
      vigor := est_vigor s,
      in_bout := est_in_bout2 s,
      bout_onset_t := est_onset_t1 s,
      bias_calc_pending := false,
      bias := 0 }

/-- Estimator state after registering the samples
`(1, 10), (2, 10), (3, 9), (7/2, 11)` into a fresh buffer of size 4
(parameters: all windows 1, vigor threshold 1/2). -/

noncomputable def c6A : Estimator :=
  ⟨1, 1, 1, 1/2, [1, 2, 3, 7/2], [10, 10, 9, 11], 3, 0, 0, false, 0, false⟩

/-- State after the bout-onset update on `c6A`: vigor 1 exceeds the
threshold, the pending flag is raised, `bias` still 0. -/

noncomputable def c6B : Estimator :=
  ⟨1, 1, 1, 1/2, [1, 2, 3, 7/2], [10, 10, 9, 11], 3, 1, 0, true, 7/2, true⟩

/-- State after registering the sample `(5, 8)` on `c6B`. -/

noncomputable def c6C : Estimator :=
  ⟨1, 1, 1, 1/2, [5, 2, 3, 7/2], [8, 10, 9, 11], 0, 1, 0, true, 7/2, true⟩

/-- State after the bias-computing update on `c6C`: the bias window has
elapsed, `bias = mean[8] - mean[11] = -3`, the pending flag clears. -/

noncomputable def c6D : Estimator :=
  ⟨1, 1, 1, 1/2, [5, 2, 3, 7/2], [8, 10, 9, 11], 0, 0, -3, false, 7/2, false⟩

/-- State after one further update on `c6D` with no new samples and no new
bout: `bias` has been reset to 0. -/

noncomputable def c6E : Estimator :=
  ⟨1, 1, 1, 1/2, [5, 2, 3, 7/2], [8, 10, 9, 11], 0, 0, 0, false, 7/2, false⟩

/-! ## Lemmas and claim theorems -/

/-- C1: for every frame with `rows, cols < 255*255` (hence in particular
rows and cols in [1, 254]) whose pixel list matches its shape, and every
destination buffer with `rows*cols + 4 ≤ capacity`, decoding the buffer
produced by encoding the frame returns the frame itself, whatever the
prior content of the buffer. -/

theorem decode_after_encode (img : Frame) (arr : List ℕ)
    (hr : img.rows < 255 * 255) (hc : img.cols < 255 * 255)
    (hwf : img.pix.length = img.rows * img.cols)
    (hcap : img.rows * img.cols + 4 ≤ arr.length) :
    (encode_frame_to_array img arr).bind decode_array_to_frame = some img := by
  obtain ⟨rows, cols, pix⟩ := img
  simp only at hr hc hwf hcap
  have h4 : 4 ≤ arr.length := by omega
  have hs : rows * cols ≤ arr.length := by omega
  have hlenA : ((pix ++ arr.drop (rows * cols)).take (arr.length - 4)).length
      = arr.length - 4 := by
    rw [List.length_take, List.length_append, hwf, List.length_drop]
    omega
  have henc : encode_frame_to_array ⟨rows, cols, pix⟩ arr =
      some ((pix ++ arr.drop (rows * cols)).take (arr.length - 4) ++
        [rows / 255 % 256, rows % 255 % 256, cols / 255 % 256, cols % 255 % 256]) := by
    simp only [encode_frame_to_array]
    exact if_pos ⟨hs, h4⟩
  rw [henc, Option.some_bind]
  have hlenB : ((pix ++ arr.drop (rows * cols)).take (arr.length - 4) ++
      [rows / 255 % 256, rows % 255 % 256, cols / 255 % 256, cols % 255 % 256]).length
      = arr.length := by
    rw [List.length_append, hlenA]
    simp only [List.length_cons, List.length_nil]
    omega
  have hdr : rows / 255 < 256 := by
    have : rows / 255 < 255 := (Nat.div_lt_iff_lt_mul (by norm_num)).2 hr
    omega
  have hdc : cols / 255 < 256 := by
    have : cols / 255 < 255 := (Nat.div_lt_iff_lt_mul (by norm_num)).2 hc
    omega
  have hmr : rows % 255 < 256 := by have := Nat.mod_lt rows (show 0 < 255 by norm_num); omega
  have hmc : cols % 255 < 256 := by have := Nat.mod_lt cols (show 0 < 255 by norm_num); omega
  have hget : ∀ k : ℕ, k < 4 →
      ((pix ++ arr.drop (rows * cols)).take (arr.length - 4) ++
        [rows / 255 % 256, rows % 255 % 256, cols / 255 % 256, cols % 255 % 256]).getD
        (arr.length - 4 + k) 0
      = [rows / 255 % 256, rows % 255 % 256, cols / 255 % 256, cols % 255 % 256].getD k 0 := by
    intro k _
    rw [List.getD_append_right _ _ _ _ (by omega), hlenA]
    congr 1
    omega
  simp only [decode_array_to_frame, hlenB]
  rw [if_pos h4]
  have e0 := hget 0 (by norm_num)
  have e1 := hget 1 (by norm_num)
  have e2 := hget 2 (by norm_num)
  have e3 := hget 3 (by norm_num)
  rw [show arr.length - 4 + 0 = arr.length - 4 by omega] at e0
  rw [show arr.length - 4 + 1 = arr.length - 3 by omega] at e1
  rw [show arr.length - 4 + 2 = arr.length - 2 by omega] at e2
  rw [show arr.length - 4 + 3 = arr.length - 1 by omega] at e3
  rw [e0, e1, e2, e3]
  simp only [List.getD_cons_zero, List.getD_cons_succ]
  rw [Nat.mod_eq_of_lt hdr, Nat.mod_eq_of_lt hmr, Nat.mod_eq_of_lt hdc, Nat.mod_eq_of_lt hmc]
  have hrows : rows / 255 * 255 + rows % 255 = rows := by
    rw [Nat.mul_comm (rows / 255) 255]
    exact Nat.div_add_mod rows 255
  have hcols : cols / 255 * 255 + cols % 255 = cols := by
    rw [Nat.mul_comm (cols / 255) 255]
    exact Nat.div_add_mod cols 255
  rw [hrows, hcols, if_pos hs]
  have htake : ∀ T : List ℕ, ((pix ++ arr.drop (rows * cols)).take (arr.length - 4) ++ T).take
      (rows * cols) = pix := by
    intro T
    rw [List.take_append_eq_append_take, hlenA,
      show rows * cols - (arr.length - 4) = 0 by omega,
      List.take_zero, List.append_nil, List.take_take,
      show rows * cols ⊓ (arr.length - 4) = rows * cols by omega,
      ← hwf, List.take_left]
  rw [htake]

/-- Witness for C1: the round trip evaluated on a concrete 2×3 frame and a
capacity-10 buffer previously filled with the byte 7. -/

theorem decode_after_encode_witness :
    (c5Frame.rows < 255 * 255 ∧ c5Frame.cols < 255 * 255 ∧
      c5Frame.pix.length = c5Frame.rows * c5Frame.cols ∧
      c5Frame.rows * c5Frame.cols + 4 ≤ (List.replicate 10 7).length) ∧
    (encode_frame_to_array c5Frame (List.replicate 10 7)).bind decode_array_to_frame
      = some c5Frame :=
  ⟨by decide, decode_after_encode c5Frame (List.replicate 10 7)
    (by decide) (by decide) (by decide) (by decide)⟩

/-- Counterexample to C5 as stated: the 2×3 frame needs 6 + 4 = 10 bytes, the
buffer holds only 8, yet `encode_frame_to_array` does not return an error — it
completes and the 4 trailer bytes silently overwrite the last two pixel bytes
(50 and 60 are gone from the produced buffer). -/

theorem encode_no_error_counterexample :
    c5Arr.length < c5Frame.rows * c5Frame.cols + 4 ∧
    encode_frame_to_array c5Frame c5Arr = some [10, 20, 30, 40, 0, 2, 0, 3] ∧
    encode_frame_to_array c5Frame c5Arr ≠ none := by decide

/-- C5 amended: over buffers of capacity at least 4, `encode_frame_to_array`
errors exactly when the pixel count alone exceeds the capacity; whenever it
succeeds, the produced buffer keeps only the first `min(size, capacity − 4)`
pixel bytes and always ends in the 4 trailer bytes — so when
`capacity − 4 < size ≤ capacity` the frame is encoded without any error and
the trailer silently overwrites the tail of the pixel data. -/

theorem encode_frame_to_array_spec (img : Frame) (arr : List ℕ)
    (h4 : 4 ≤ arr.length) (hwf : img.pix.length = img.rows * img.cols) :
    (encode_frame_to_array img arr = none ↔ arr.length < img.rows * img.cols) ∧
    ∀ b, encode_frame_to_array img arr = some b →
      b.length = arr.length ∧
      b.take (min (img.rows * img.cols) (arr.length - 4))
        = img.pix.take (min (img.rows * img.cols) (arr.length - 4)) ∧
      b.drop (arr.length - 4)
        = [img.rows / 255 % 256, img.rows % 255 % 256,
           img.cols / 255 % 256, img.cols % 255 % 256] := by
  obtain ⟨rows, cols, pix⟩ := img
  simp only at hwf
  constructor
  · simp only [encode_frame_to_array]
    constructor
    · intro h
      by_contra hlt
      rw [if_pos ⟨by omega, h4⟩] at h
      exact Option.some_ne_none _ h
    · intro h
      rw [if_neg (by omega)]
  · intro b hb
    simp only [encode_frame_to_array] at hb
    by_cases hle : rows * cols ≤ arr.length ∧ 4 ≤ arr.length
    · rw [if_pos hle] at hb
      obtain ⟨hs, -⟩ := hle
      have hb' := (Option.some_inj.1 hb).symm
      subst hb'
      have hlenA : ((pix ++ arr.drop (rows * cols)).take (arr.length - 4)).length
          = arr.length - 4 := by
        rw [List.length_take, List.length_append, hwf, List.length_drop]
        omega
      refine ⟨?_, ?_, ?_⟩
      · rw [List.length_append, hlenA]
        simp only [List.length_cons, List.length_nil]
        omega
      · rw [List.take_append_eq_append_take, hlenA,
          show min (rows * cols) (arr.length - 4) - (arr.length - 4) = 0 by omega,
          List.take_zero, List.append_nil, List.take_take,
          show min (rows * cols) (arr.length - 4) ⊓ (arr.length - 4)
            = min (rows * cols) (arr.length - 4) by omega,
          List.take_append_eq_append_take,
          show min (rows * cols) (arr.length - 4) - pix.length = 0 by omega,
          List.take_zero, List.append_nil]
      · rw [List.drop_append_eq_append_drop, hlenA,
          show arr.length - 4 - (arr.length - 4) = 0 by omega, List.drop_zero,
          List.drop_eq_nil_of_le (le_of_eq hlenA), List.nil_append]
    · rw [if_neg hle] at hb
      exact absurd hb (by simp)

/-- Witness for the amended C5: the 2×3 frame into the capacity-8 buffer
(6 ≤ 8, no error; the trailer overwrites the last two pixel bytes). -/

theorem encode_frame_to_array_spec_witness :
    (4 ≤ c5Arr.length ∧ c5Frame.pix.length = c5Frame.rows * c5Frame.cols) ∧
    ((encode_frame_to_array c5Frame c5Arr = none
        ↔ c5Arr.length < c5Frame.rows * c5Frame.cols) ∧
      ∀ b, encode_frame_to_array c5Frame c5Arr = some b →
        b.length = c5Arr.length ∧
        b.take (min (c5Frame.rows * c5Frame.cols) (c5Arr.length - 4))
          = c5Frame.pix.take (min (c5Frame.rows * c5Frame.cols) (c5Arr.length - 4)) ∧
        b.drop (c5Arr.length - 4)
          = [c5Frame.rows / 255 % 256, c5Frame.rows % 255 % 256,
             c5Frame.cols / 255 % 256, c5Frame.cols % 255 % 256]) :=
  ⟨⟨by decide, by decide⟩, encode_frame_to_array_spec c5Frame c5Arr (by decide) (by decide)⟩

/-- Counterexample to C7 as stated: with the bounded timestamp queue full
(10 entries at `maxsize=10`) and a successful fetch of a 1×1 frame, the
acquisition iteration blocks inside `Queue.put` — the timestamp is not
dropped and the loop does not proceed to the next iteration. -/

theorem timestamp_push_counterexample :
    (List.replicate 10 (0 : ℚ)).length = 10 ∧
    acquisition_step 10 (List.replicate 10 (0 : ℚ)) (List.replicate 6 0) true ⟨1, 1, [5]⟩ 99
      = .blocked_on_put [5, 0, 0, 1, 0, 1] ∧
    acquisition_step 10 (List.replicate 10 (0 : ℚ)) (List.replicate 6 0) true ⟨1, 1, [5]⟩ 99
      ≠ .completed (List.replicate 10 (0 : ℚ)) [5, 0, 0, 1, 0, 1] := by decide

/-- C7 amended: the timestamp push uses the blocking default of
`Queue.put`.  On a successful fetch whose encode succeeds, the iteration
appends the timestamp and proceeds when the bounded queue has free space,
and blocks inside `put` (rather than dropping the timestamp) when the
queue is full. -/

theorem acquisition_put_spec (maxsize : ℕ) (queue : List ℚ) (frame_array arr' : List ℕ)
    (frame : Frame) (timestamp : ℚ)
    (henc : encode_frame_to_array frame frame_array = some arr') :
    (queue.length < maxsize →
      acquisition_step maxsize queue frame_array true frame timestamp
        = .completed (queue ++ [timestamp]) arr') ∧
    (maxsize ≤ queue.length →
      acquisition_step maxsize queue frame_array true frame timestamp
        = .blocked_on_put arr') := by
  constructor
  · intro hlt
    simp only [acquisition_step, henc, queue_put, if_pos hlt, if_true]
  · intro hge
    simp only [acquisition_step, henc, queue_put, if_neg (by omega : ¬ queue.length < maxsize),
      if_true]

/-- Witness for the amended C7: a queue holding 3 of 10 slots accepts the
push, and a full queue of 10 blocks. -/

theorem acquisition_put_spec_witness :
    encode_frame_to_array ⟨1, 1, [5]⟩ (List.replicate 6 0) = some [5, 0, 0, 1, 0, 1] ∧
    ((List.replicate 3 (0 : ℚ)).length < 10 →
      acquisition_step 10 (List.replicate 3 (0 : ℚ)) (List.replicate 6 0) true ⟨1, 1, [5]⟩ 99
        = .completed (List.replicate 3 (0 : ℚ) ++ [99]) [5, 0, 0, 1, 0, 1]) ∧
    (10 ≤ (List.replicate 10 (0 : ℚ)).length →
      acquisition_step 10 (List.replicate 10 (0 : ℚ)) (List.replicate 6 0) true ⟨1, 1, [5]⟩ 99
        = .blocked_on_put [5, 0, 0, 1, 0, 1]) :=
  ⟨by decide,
    (acquisition_put_spec 10 (List.replicate 3 (0 : ℚ)) (List.replicate 6 0) [5, 0, 0, 1, 0, 1]
      ⟨1, 1, [5]⟩ 99 (by decide)).1,
    (acquisition_put_spec 10 (List.replicate 10 (0 : ℚ)) (List.replicate 6 0) [5, 0, 0, 1, 0, 1]
      ⟨1, 1, [5]⟩ 99 (by decide)).2⟩

lemma send_angle_not_connected (s : TrackerConn) (hc : s.conn = false) (sf : Bool) :
    send_angle_through_pipe s sf = s := by
  simp [send_angle_through_pipe, hc]

lemma loop_connection_run_no_request (inputs : List (Bool × Bool × Bool)) (s : TrackerConn)
    (hflag : s.attempt_connection_event = false) (hconn : s.conn = false) :
    loop_connection_run s inputs = (s, false) := by
  induction inputs generalizing s with
  | nil => rfl
  | cons i rest ih =>
    obtain ⟨a, f, sf⟩ := i
    have hphase : connection_phase s a = (s, false) := by
      obtain ⟨c, l, at'⟩ := s
      simp only at hflag hconn
      subst hflag hconn
      simp [connection_phase]
    have hstep : loop_connection_step s a f sf = (s, false) := by
      simp only [loop_connection_step, hphase]
      cases f <;> simp [send_angle_not_connected s hconn]
    simp only [loop_connection_run, hstep, ih s hflag hconn, Bool.false_or]

/-- C8: from any connected state, a failed send clears the connection
handle and raises the connection-lost flag; and from then on, as long as
no new explicit attempt-connection request arrives (the attempt flag was
clear and is never externally set), any sequence of further loop
iterations performs no connection attempt and stays disconnected. -/

theorem send_failure_no_reconnect (s : TrackerConn) (hconn : s.conn = true)
    (hflag : s.attempt_connection_event = false) (inputs : List (Bool × Bool × Bool)) :
    (send_angle_through_pipe s true).conn = false ∧
    (send_angle_through_pipe s true).connection_lost_event = true ∧
    loop_connection_run (send_angle_through_pipe s true) inputs
      = (send_angle_through_pipe s true, false) := by
  have hsend : send_angle_through_pipe s true
      = { s with conn := false, connection_lost_event := true } := by
    simp [send_angle_through_pipe, hconn]
  refine ⟨by rw [hsend], by rw [hsend], ?_⟩
  apply loop_connection_run_no_request
  · rw [hsend]
    exact hflag
  · rw [hsend]

/-- Witness for C8: the concrete connected state with both flags clear,
followed by three loop iterations with a timestamp arriving and the peer
accepting — no reconnect happens without a new request. -/

theorem send_failure_no_reconnect_witness :
    ((⟨true, false, false⟩ : TrackerConn).conn = true ∧
      (⟨true, false, false⟩ : TrackerConn).attempt_connection_event = false) ∧
    ((send_angle_through_pipe ⟨true, false, false⟩ true).conn = false ∧
      (send_angle_through_pipe ⟨true, false, false⟩ true).connection_lost_event = true ∧
      loop_connection_run (send_angle_through_pipe ⟨true, false, false⟩ true)
        [(true, true, false), (true, false, false), (true, true, true)]
        = (send_angle_through_pipe ⟨true, false, false⟩ true, false)) :=
  ⟨by decide, send_failure_no_reconnect ⟨true, false, false⟩ rfl rfl
    [(true, true, false), (true, false, false), (true, true, true)]⟩

/-! ### Tracking lemmas and claims C3, C9, C2 -/

lemma winSum_zero (x0 x1 y0 y1 : ℤ) (f : ℤ → ℤ → ℝ) (h : ∀ x y, f x y = 0) :
    winSum x0 x1 y0 y1 f = 0 := by
  simp [winSum, h]

lemma find_tip_with_com_zero_image (image : Img) (hz : ∀ y x, image.pix y x = 0)
    (bx by' dx dy lseg radius : ℝ) :
    find_tip_with_com image (some bx) (some by') (some dx) (some dy) lseg radius
      = .ok (some (-1), some (-1), some 0, some 0) := by
  have htot : total_intensity image (bx + dx) (by' + dy) radius = 0 := by
    unfold total_intensity maskedSum
    apply winSum_zero
    intro x y
    simp [hz]
  simp [find_tip_with_com, htot]

lemma track_segments_zero_image (image : Img) (hz : ∀ y x, image.pix y x = 0)
    (radius lseg : ℝ) (k : ℕ) (bx by' dx dy : ℝ) :
    track_segments image radius lseg (k + 1) (some bx) (some by') (some dx) (some dy)
      = .ok (List.replicate (k + 1) (none, none), List.replicate (k + 1) none, true) := by
  rw [track_segments, find_tip_with_com_zero_image image hz]
  simp only
  rw [if_pos ⟨-1, rfl, by norm_num⟩]

lemma tracking_zero_image (img : Img) (hz : ∀ y x, img.pix y x = 0)
    (base tip : ℝ × ℝ) (n : ℕ) (radius : ℝ) (hn : 1 ≤ n) :
    center_of_mass_based_tracking img base tip n radius
      = .ok ((some base.1, some base.2) :: List.replicate n (none, none),
          List.replicate n none, true) := by
  obtain ⟨m, rfl⟩ : ∃ m, n = m + 1 := ⟨n - 1, by omega⟩
  unfold center_of_mass_based_tracking
  rw [track_segments_zero_image img hz]

lemma finite_points_replicate_none (n : ℕ) :
    finite_points (List.replicate n (none, none)) = [] := by
  induction n with
  | zero => rfl
  | succ m ih => simp [finite_points, List.replicate_succ, ih]

lemma finite_vals_replicate_none (n : ℕ) :
    finite_vals (List.replicate n none) = [] := by
  induction n with
  | zero => rfl
  | succ m ih => simp [finite_vals, List.replicate_succ, ih]

/-- C3: on an all-zero image, for every base, tip, `n_seg ≥ 1` and search
radius, the tracking returns without raising: the first `find_tip_with_com`
call reports zero total intensity through the sentinel, the loop breaks at
`i = 0`, so the only valid (non-NaN) segment entry is the base itself and no
valid angle is recorded (the returned arrays keep their NaN fill). -/

theorem tracking_zero_image_claim (img : Img) (base tip : ℝ × ℝ) (n : ℕ) (radius : ℝ)
    (hz : ∀ y x, img.pix y x = 0) (hn : 1 ≤ n) :
    center_of_mass_based_tracking img base tip n radius
      = .ok ((some base.1, some base.2) :: List.replicate n (none, none),
          List.replicate n none, true) ∧
    finite_points ((some base.1, some base.2) :: List.replicate n (none, none))
      = [(base.1, base.2)] ∧
    finite_vals (List.replicate n none) = [] := by
  refine ⟨tracking_zero_image img hz base tip n radius hn, ?_, finite_vals_replicate_none n⟩
  simp [finite_points, finite_points_replicate_none n]

/-- Witness for C3: the all-zero 4×4 image with base `(1, 1)`, tip `(3, 1)`,
two segments, radius 1. -/

theorem tracking_zero_image_claim_witness :
    ((∀ y x, zimg.pix y x = 0) ∧ 1 ≤ 2) ∧
    (center_of_mass_based_tracking zimg (1, 1) (3, 1) 2 1
      = .ok ((some 1, some 1) :: List.replicate 2 (none, none),
          List.replicate 2 none, true) ∧
    finite_points ((some 1, some 1) :: List.replicate 2 (none, none)) = [(1, 1)] ∧
    finite_vals (List.replicate 2 none) = []) :=
  ⟨⟨fun _ _ => rfl, by norm_num⟩,
    tracking_zero_image_claim zimg (1, 1) (3, 1) 2 1 (fun _ _ => rfl) (by norm_num)⟩

lemma clip_int_nonneg (v : ℝ) (bound : ℕ) : 0 ≤ clip_int v bound := by
  unfold clip_int
  exact Int.floor_nonneg.2 (le_max_left 0 _)

lemma clip_int_le_bound (v : ℝ) (bound : ℕ) : clip_int v bound ≤ bound := by
  unfold clip_int
  calc ⌊max 0 (min v (bound : ℝ))⌋ ≤ ⌊((bound : ℕ) : ℝ)⌋ :=
        Int.floor_le_floor (max_le (by positivity) (min_le_right _ _))
    _ = bound := Int.floor_natCast bound

/-- C9 amended: `find_tip_with_com` clips its search window inside the
image bounds (so every pixel it reads is in range), and with finite
(non-NaN) positional arguments it never raises — each failure condition
is reported by returning values, not exceptions; moreover whenever it
returns the sentinel `(-1, -1, 0, 0)` the tracking loop exits early at
that iteration, leaving the NaN fill and the break flag.  (Totality of
the full `center_of_mass_based_tracking` fails: see the counterexample,
where a centroid that coincides exactly with the segment base sends NaN
into the next iteration, which raises.) -/

theorem find_tip_with_com_safety (image : Img) (bx by' dx dy lseg radius : ℝ) :
    (0 ≤ clip_int (bx + dx - radius) image.W ∧ clip_int (bx + dx - radius) image.W ≤ image.W ∧
     0 ≤ clip_int (bx + dx + radius) image.W ∧ clip_int (bx + dx + radius) image.W ≤ image.W ∧
     0 ≤ clip_int (by' + dy - radius) image.H ∧ clip_int (by' + dy - radius) image.H ≤ image.H ∧
     0 ≤ clip_int (by' + dy + radius) image.H ∧ clip_int (by' + dy + radius) image.H ≤ image.H) ∧
    (∃ out, find_tip_with_com image (some bx) (some by') (some dx) (some dy) lseg radius
      = .ok out) ∧
    (∀ k : ℕ, ∀ nbx nby ndx ndy : RN,
      find_tip_with_com image nbx nby ndx ndy lseg radius
        = .ok (some (-1), some (-1), some 0, some 0) →
      track_segments image radius lseg (k + 1) nbx nby ndx ndy
        = .ok (List.replicate (k + 1) (none, none), List.replicate (k + 1) none, true)) := by
  refine ⟨⟨clip_int_nonneg _ _, clip_int_le_bound _ _, clip_int_nonneg _ _, clip_int_le_bound _ _,
    clip_int_nonneg _ _, clip_int_le_bound _ _, clip_int_nonneg _ _, clip_int_le_bound _ _⟩,
    ?_, ?_⟩
  · simp only [find_tip_with_com]
    split
    · exact ⟨_, rfl⟩
    · split
      · exact ⟨_, rfl⟩
      · split
        · exact ⟨_, rfl⟩
        · exact ⟨_, rfl⟩
  · intro k nbx nby ndx ndy hsent
    rw [track_segments, hsent]
    simp only
    rw [if_pos ⟨-1, rfl, by norm_num⟩]

/-- Witness for the amended C9: the safety facts instantiated on the
all-zero image with concrete finite arguments, including the early exit
following a sentinel return. -/

theorem find_tip_with_com_safety_witness :
    ((0 ≤ clip_int ((1:ℝ) + 1 - 1) zimg.W ∧ clip_int ((1:ℝ) + 1 - 1) zimg.W ≤ zimg.W ∧
      0 ≤ clip_int ((1:ℝ) + 1 + 1) zimg.W ∧ clip_int ((1:ℝ) + 1 + 1) zimg.W ≤ zimg.W ∧
      0 ≤ clip_int ((1:ℝ) + 0 - 1) zimg.H ∧ clip_int ((1:ℝ) + 0 - 1) zimg.H ≤ zimg.H ∧
      0 ≤ clip_int ((1:ℝ) + 0 + 1) zimg.H ∧ clip_int ((1:ℝ) + 0 + 1) zimg.H ≤ zimg.H) ∧
     (∃ out, find_tip_with_com zimg (some 1) (some 1) (some 1) (some 0) 1 1 = .ok out)) ∧
    track_segments zimg 1 1 2 (some 1) (some 1) (some 1) (some 0)
      = .ok (List.replicate 2 (none, none), List.replicate 2 none, true) :=
  ⟨⟨(find_tip_with_com_safety zimg 1 1 1 0 1 1).1,
    (find_tip_with_com_safety zimg 1 1 1 0 1 1).2.1⟩,
    (find_tip_with_com_safety zimg 1 1 1 0 1 1).2.2 1 (some 1) (some 1) (some 1) (some 0)
      (find_tip_with_com_zero_image zimg (fun _ _ => rfl) 1 1 1 0 1 1)⟩

lemma find_tip_cimg :
    find_tip_with_com cimg (some 2) (some 2) (some 2) (some 0) 2 2
      = .ok (none, none, none, none) := by
  have hx0 : clip_int ((2:ℝ) + 2 - 2) cimg.W = 2 := by norm_num [clip_int, cimg]
  have hx1 : clip_int ((2:ℝ) + 2 + 2) cimg.W = 5 := by norm_num [clip_int, cimg]
  have hy0 : clip_int ((2:ℝ) + 0 - 2) cimg.H = 0 := by norm_num [clip_int, cimg]
  have hy1 : clip_int ((2:ℝ) + 0 + 2) cimg.H = 4 := by norm_num [clip_int, cimg]
  have htot : total_intensity cimg ((2:ℝ) + 2) ((2:ℝ) + 0) 2 = 10 := by
    rw [total_intensity, maskedSum, hx0, hx1, hy0, hy1, winSum]
    rw [show ((5:ℤ) - 2).toNat = 3 from rfl, show ((4:ℤ) - 0).toNat = 4 from rfl]
    simp only [List.range_succ, List.range_zero, List.map_append, List.map_cons, List.map_nil,
      List.sum_append, List.sum_cons, List.sum_nil]
    norm_num [cimg]
  have hsx : maskedSum cimg ((2:ℝ) + 2) ((2:ℝ) + 0) 2 (fun x _ => (x : ℝ)) = 20 := by
    rw [maskedSum, hx0, hx1, hy0, hy1, winSum]
    rw [show ((5:ℤ) - 2).toNat = 3 from rfl, show ((4:ℤ) - 0).toNat = 4 from rfl]
    simp only [List.range_succ, List.range_zero, List.map_append, List.map_cons, List.map_nil,
      List.sum_append, List.sum_cons, List.sum_nil]
    norm_num [cimg]
  have hsy : maskedSum cimg ((2:ℝ) + 2) ((2:ℝ) + 0) 2 (fun _ y => (y : ℝ)) = 20 := by
    rw [maskedSum, hx0, hx1, hy0, hy1, winSum]
    rw [show ((5:ℤ) - 2).toNat = 3 from rfl, show ((4:ℤ) - 0).toNat = 4 from rfl]
    simp only [List.range_succ, List.range_zero, List.map_append, List.map_cons, List.map_nil,
      List.sum_append, List.sum_cons, List.sum_nil]
    norm_num [cimg]
  have hcx : com_x cimg ((2:ℝ) + 2) ((2:ℝ) + 0) 2 = 2 := by
    rw [com_x, hsx, htot]
    norm_num
  have hcy : com_y cimg ((2:ℝ) + 2) ((2:ℝ) + 0) 2 = 2 := by
    rw [com_y, hsy, htot]
    norm_num
  have hdist : com_dist cimg ((2:ℝ) + 2) ((2:ℝ) + 0) 2 2 2 = 0 := by
    rw [com_dist, hcx, hcy]
    norm_num
  simp only [find_tip_with_com]
  rw [if_neg (by rw [hx0, hx1]; norm_num), if_neg (by rw [htot]; norm_num), if_pos hdist]

lemma is_neg_none : ¬ is_neg (none : RN) := by
  rintro ⟨v, hv, -⟩
  exact Option.noConfusion hv

lemma track_cimg_one :
    track_segments cimg 2 2 1 (some 2) (some 2) (some 2) (some 0)
      = .ok ([(none, none)], [none], false) := by
  rw [track_segments, find_tip_cimg]
  simp only
  rw [if_neg is_neg_none, track_segments]
  rfl

lemma track_cimg_two :
    track_segments cimg 2 2 2 (some 2) (some 2) (some 2) (some 0) = .error () := by
  rw [track_segments, find_tip_cimg]
  simp only
  rw [if_neg is_neg_none, track_segments]
  rfl

/-- Counterexample to C9 as stated: on the 5×5 image whose only bright
pixel lies exactly at the base `(2, 2)`, with tip `(6, 2)`, two segments
and radius 2, the first iteration's centroid coincides with the base, the
rescaling divides by zero and produces NaN coordinates, the `bx < 0`
check does not fire on NaN, and the second iteration's
`int(np.clip(nan, ...))` raises — `center_of_mass_based_tracking` ends in
an exception rather than a sentinel-signalled early exit. -/

theorem tracking_nan_exception_counterexample :
    center_of_mass_based_tracking cimg (2, 2) (6, 2) 2 2 = .error () := by
  have hlseg : Real.sqrt 16 / (2 : ℝ) = 2 := by
    rw [show (16:ℝ) = 4 ^ 2 by norm_num, Real.sqrt_sq (by norm_num)]
    norm_num
  unfold center_of_mass_based_tracking
  norm_num
  rw [hlseg, track_cimg_two]

/-- Counterexample to C2 as stated: on the same bright-pixel-at-base
image with tip `(4, 2)` and a single segment, the loop completes its one
iteration with no early termination (no break), the fixed segment length
is `|tip - base| / 1 = 2`, yet the two returned consecutive segment
positions are not at distance 2 — the second position is NaN. -/

theorem tracking_fixed_length_counterexample :
    center_of_mass_based_tracking cimg (2, 2) (4, 2) 1 2
      = .ok ([(some 2, some 2), (none, none)], [none], false) ∧
    Real.sqrt (((4:ℝ) - 2) ^ 2 + ((2:ℝ) - 2) ^ 2) / ((1:ℕ) : ℝ) = 2 ∧
    ¬ chainDist 2 [(some 2, some 2), (none, none)] := by
  have h4 : Real.sqrt 4 = 2 := by
    rw [show (4:ℝ) = 2 ^ 2 by norm_num, Real.sqrt_sq (by norm_num)]
  refine ⟨?_, by rw [show ((4:ℝ) - 2) ^ 2 + ((2:ℝ) - 2) ^ 2 = 4 by norm_num, h4]; norm_num, ?_⟩
  · unfold center_of_mass_based_tracking
    norm_num
    rw [h4]
    rw [track_cimg_one]
  · intro h
    have := h.1
    simp [rnDist] at this

lemma is_neg_some (A : ℝ) : is_neg (some A) ↔ A < 0 := by
  simp [is_neg]

lemma find_tip_step (image : Img) (bx by' dx dy lseg radius : ℝ) (A B : ℝ) (dx' dy' : RN)
    (h : find_tip_with_com image (some bx) (some by') (some dx) (some dy) lseg radius
      = .ok (some A, some B, dx', dy'))
    (hA : ¬ A < 0) (hl : 0 ≤ lseg) :
    Real.sqrt ((A - bx) ^ 2 + (B - by') ^ 2) = lseg ∧
    (∃ C, dx' = some C) ∧ (∃ D, dy' = some D) := by
  simp only [find_tip_with_com] at h
  split at h
  · simp only [Except.ok.injEq, Prod.mk.injEq, Option.some.injEq] at h
    exact absurd hA (by rw [← h.1]; norm_num)
  · split at h
    · simp only [Except.ok.injEq, Prod.mk.injEq, Option.some.injEq] at h
      exact absurd hA (by rw [← h.1]; norm_num)
    · split at h
      · simp only [Except.ok.injEq, Prod.mk.injEq] at h
        exact absurd h.1 (by simp)
      · rename_i hdeg htot hd
        simp only [Except.ok.injEq, Prod.mk.injEq, Option.some.injEq] at h
        obtain ⟨hA', hB', hdx', hdy'⟩ := h
        refine ⟨?_, ⟨_, hdx'.symm⟩, ⟨_, hdy'.symm⟩⟩
        rw [← hA', ← hB']
        have hS : com_dist image (bx + dx) (by' + dy) radius bx by' ^ 2
            = (com_x image (bx + dx) (by' + dy) radius - bx) ^ 2 +
              (com_y image (bx + dx) (by' + dy) radius - by') ^ 2 :=
          Real.sq_sqrt (by positivity)
        have hd2 : com_dist image (bx + dx) (by' + dy) radius bx by' ^ 2 ≠ 0 :=
          pow_ne_zero 2 hd
        have hval : (bx + (com_x image (bx + dx) (by' + dy) radius - bx) *
              (lseg / com_dist image (bx + dx) (by' + dy) radius bx by') - bx) ^ 2 +
            (by' + (com_y image (bx + dx) (by' + dy) radius - by') *
              (lseg / com_dist image (bx + dx) (by' + dy) radius bx by') - by') ^ 2
            = lseg ^ 2 := by
          have hexp : (bx + (com_x image (bx + dx) (by' + dy) radius - bx) *
                (lseg / com_dist image (bx + dx) (by' + dy) radius bx by') - bx) ^ 2 +
              (by' + (com_y image (bx + dx) (by' + dy) radius - by') *
                (lseg / com_dist image (bx + dx) (by' + dy) radius bx by') - by') ^ 2
              = ((com_x image (bx + dx) (by' + dy) radius - bx) ^ 2 +
                 (com_y image (bx + dx) (by' + dy) radius - by') ^ 2) *
                (lseg ^ 2 / com_dist image (bx + dx) (by' + dy) radius bx by' ^ 2) := by
            ring
          rw [hexp, ← hS, mul_comm]
          exact div_mul_cancel₀ _ hd2
        rw [hval]
        exact Real.sqrt_sq hl

lemma track_segments_chain (image : Img) (radius lseg : ℝ) (hl : 0 ≤ lseg) :
    ∀ (k : ℕ) (bx by' : ℝ) (dx dy : RN) (segs : List (RN × RN)) (angs : List RN),
      track_segments image radius lseg k (some bx) (some by') dx dy = .ok (segs, angs, false) →
      (∀ p ∈ segs, ∃ a b, p = (some a, some b)) →
      chainDist lseg ((some bx, some by') :: segs) := by
  intro k
  induction k with
  | zero =>
    intro bx by' dx dy segs angs h hfin
    rw [track_segments] at h
    simp only [Except.ok.injEq, Prod.mk.injEq] at h
    rw [← h.1]
    exact trivial
  | succ m ih =>
    intro bx by' dx dy segs angs h hfin
    rw [track_segments] at h
    cases dx with
    | none => exact absurd h (by rw [show find_tip_with_com image (some bx) (some by') none dy
        lseg radius = .error () from rfl]; simp)
    | some dxv =>
    cases dy with
    | none => exact absurd h (by rw [show find_tip_with_com image (some bx) (some by')
        (some dxv) none lseg radius = .error () from rfl]; simp)
    | some dyv =>
    cases hft : find_tip_with_com image (some bx) (some by') (some dxv) (some dyv) lseg radius with
    | error e =>
      rw [hft] at h
      exact absurd h (by simp)
    | ok out =>
      obtain ⟨bx', by2, dx', dy'⟩ := out
      rw [hft] at h
      simp only at h
      by_cases hneg : is_neg bx'
      · rw [if_pos hneg] at h
        simp only [Except.ok.injEq, Prod.mk.injEq] at h
        exact absurd h.2.2 (by simp)
      · rw [if_neg hneg] at h
        cases hrec : track_segments image radius lseg m bx' by2 dx' dy' with
        | error e =>
          rw [hrec] at h
          exact absurd h (by simp)
        | ok out2 =>
          obtain ⟨segs', angs', broke'⟩ := out2
          rw [hrec] at h
          simp only [Except.ok.injEq, Prod.mk.injEq] at h
          obtain ⟨hsegs, hangs, hbroke⟩ := h
          obtain ⟨a, b, hab⟩ := hfin (bx', by2) (by rw [← hsegs]; exact List.mem_cons_self _ _)
          have hbx' : bx' = some a := congrArg Prod.fst hab
          have hby2 : by2 = some b := congrArg Prod.snd hab
          subst hbx' hby2
          rw [is_neg_some] at hneg
          obtain ⟨hdist, ⟨C, hC⟩, ⟨D, hD⟩⟩ :=
            find_tip_step image bx by' dxv dyv lseg radius a b dx' dy' hft hneg hl
          subst hC hD
          rw [← hsegs]
          refine ⟨?_, ?_⟩
          · simp only [rnDist, Option.some.injEq]
            exact hdist
          · exact ih a b (some C) (some D) segs' angs'
              (by rw [hrec, hbroke]) (fun p hp => hfin p (by rw [← hsegs]; exact List.mem_cons_of_mem _ hp))

/-- C2 amended: for every image and valid `(base, tip, n_seg ≥ 1, radius)`
for which the tracking loop completes all iterations without early
termination and every returned segment position is finite (i.e. no
intensity centroid coincided exactly with its segment base, which would
produce NaN positions), every consecutive pair of returned segment
positions — including the base — is at Euclidean distance exactly
`|tip - base| / n_seg` in real arithmetic. -/

theorem tracking_fixed_segment_length (img : Img) (base tip : ℝ × ℝ) (n : ℕ) (radius : ℝ)
    (segs : List (RN × RN)) (angs : List RN) (hn : 1 ≤ n)
    (hok : center_of_mass_based_tracking img base tip n radius = .ok (segs, angs, false))
    (hfin : ∀ p ∈ segs, ∃ a b, p = (some a, some b)) :
    chainDist (Real.sqrt ((tip.1 - base.1) ^ 2 + (tip.2 - base.2) ^ 2) / n) segs := by
  unfold center_of_mass_based_tracking at hok
  cases hts : track_segments img radius
      (Real.sqrt ((tip.1 - base.1) ^ 2 + (tip.2 - base.2) ^ 2) / n) n
      (some base.1) (some base.2)
      (some ((tip.1 - base.1) / n)) (some ((tip.2 - base.2) / n)) with
  | error e =>
    rw [hts] at hok
    exact absurd hok (by simp)
  | ok out =>
    obtain ⟨segs0, angs0, broke0⟩ := out
    rw [hts] at hok
    simp only [Except.ok.injEq, Prod.mk.injEq] at hok
    obtain ⟨hsegs, hangs, hbroke⟩ := hok
    rw [← hsegs]
    apply track_segments_chain img radius _ (by positivity) n base.1 base.2 _ _ segs0 angs0
      (by rw [hts, hbroke])
    intro p hp
    exact hfin p (by rw [← hsegs]; exact List.mem_cons_of_mem _ hp)

lemma find_tip_wimg1 :
    find_tip_with_com wimg (some 0) (some 0) (some 0) (some 2) 2 2
      = .ok (some 0, some 2, some 0, some 2) := by
  have hx0 : clip_int ((0:ℝ) + 0 - 2) wimg.W = 0 := by norm_num [clip_int, wimg]
  have hx1 : clip_int ((0:ℝ) + 0 + 2) wimg.W = 2 := by norm_num [clip_int, wimg]
  have hy0 : clip_int ((0:ℝ) + 2 - 2) wimg.H = 0 := by norm_num [clip_int, wimg]
  have hy1 : clip_int ((0:ℝ) + 2 + 2) wimg.H = 4 := by norm_num [clip_int, wimg]
  have htot : total_intensity wimg ((0:ℝ) + 0) ((0:ℝ) + 2) 2 = 10 := by
    rw [total_intensity, maskedSum, hx0, hx1, hy0, hy1, winSum]
    rw [show ((2:ℤ) - 0).toNat = 2 from rfl, show ((4:ℤ) - 0).toNat = 4 from rfl]
    simp only [List.range_succ, List.range_zero, List.map_append, List.map_cons, List.map_nil,
      List.sum_append, List.sum_cons, List.sum_nil]
    norm_num [wimg]
  have hsx : maskedSum wimg ((0:ℝ) + 0) ((0:ℝ) + 2) 2 (fun x _ => (x : ℝ)) = 0 := by
    rw [maskedSum, hx0, hx1, hy0, hy1, winSum]
    rw [show ((2:ℤ) - 0).toNat = 2 from rfl, show ((4:ℤ) - 0).toNat = 4 from rfl]
    simp only [List.range_succ, List.range_zero, List.map_append, List.map_cons, List.map_nil,
      List.sum_append, List.sum_cons, List.sum_nil]
    norm_num [wimg]
  have hsy : maskedSum wimg ((0:ℝ) + 0) ((0:ℝ) + 2) 2 (fun _ y => (y : ℝ)) = 20 := by
    rw [maskedSum, hx0, hx1, hy0, hy1, winSum]
    rw [show ((2:ℤ) - 0).toNat = 2 from rfl, show ((4:ℤ) - 0).toNat = 4 from rfl]
    simp only [List.range_succ, List.range_zero, List.map_append, List.map_cons, List.map_nil,
      List.sum_append, List.sum_cons, List.sum_nil]
    norm_num [wimg]
  have hcx : com_x wimg ((0:ℝ) + 0) ((0:ℝ) + 2) 2 = 0 := by
    rw [com_x, hsx, htot]
    norm_num
  have hcy : com_y wimg ((0:ℝ) + 0) ((0:ℝ) + 2) 2 = 2 := by
    rw [com_y, hsy, htot]
    norm_num
  have hdist : com_dist wimg ((0:ℝ) + 0) ((0:ℝ) + 2) 2 0 0 = 2 := by
    rw [com_dist, hcx, hcy, show ((0:ℝ) - 0) ^ 2 + ((2:ℝ) - 0) ^ 2 = 2 ^ 2 by norm_num]
    exact Real.sqrt_sq (by norm_num)
  simp only [find_tip_with_com]
  rw [if_neg (by rw [hx0, hx1]; norm_num), if_neg (by rw [htot]; norm_num),
    if_neg (by rw [hdist]; norm_num), hcx, hcy, hdist]
  norm_num

lemma find_tip_wimg2 :
    find_tip_with_com wimg (some 0) (some 2) (some 0) (some 2) 2 2
      = .ok (some 0, some 4, some 0, some 2) := by
  have hx0 : clip_int ((0:ℝ) + 0 - 2) wimg.W = 0 := by norm_num [clip_int, wimg]
  have hx1 : clip_int ((0:ℝ) + 0 + 2) wimg.W = 2 := by norm_num [clip_int, wimg]
  have hy0 : clip_int ((2:ℝ) + 2 - 2) wimg.H = 2 := by norm_num [clip_int, wimg]
  have hy1 : clip_int ((2:ℝ) + 2 + 2) wimg.H = 6 := by norm_num [clip_int, wimg]
  have htot : total_intensity wimg ((0:ℝ) + 0) ((2:ℝ) + 2) 2 = 20 := by
    rw [total_intensity, maskedSum, hx0, hx1, hy0, hy1, winSum]
    rw [show ((2:ℤ) - 0).toNat = 2 from rfl, show ((6:ℤ) - 2).toNat = 4 from rfl]
    simp only [List.range_succ, List.range_zero, List.map_append, List.map_cons, List.map_nil,
      List.sum_append, List.sum_cons, List.sum_nil]
    norm_num [wimg]
  have hsx : maskedSum wimg ((0:ℝ) + 0) ((2:ℝ) + 2) 2 (fun x _ => (x : ℝ)) = 0 := by
    rw [maskedSum, hx0, hx1, hy0, hy1, winSum]
    rw [show ((2:ℤ) - 0).toNat = 2 from rfl, show ((6:ℤ) - 2).toNat = 4 from rfl]
    simp only [List.range_succ, List.range_zero, List.map_append, List.map_cons, List.map_nil,
      List.sum_append, List.sum_cons, List.sum_nil]
    norm_num [wimg]
  have hsy : maskedSum wimg ((0:ℝ) + 0) ((2:ℝ) + 2) 2 (fun _ y => (y : ℝ)) = 60 := by
    rw [maskedSum, hx0, hx1, hy0, hy1, winSum]
    rw [show ((2:ℤ) - 0).toNat = 2 from rfl, show ((6:ℤ) - 2).toNat = 4 from rfl]
    simp only [List.range_succ, List.range_zero, List.map_append, List.map_cons, List.map_nil,
      List.sum_append, List.sum_cons, List.sum_nil]
    norm_num [wimg]
  have hcx : com_x wimg ((0:ℝ) + 0) ((2:ℝ) + 2) 2 = 0 := by
    rw [com_x, hsx, htot]
    norm_num
  have hcy : com_y wimg ((0:ℝ) + 0) ((2:ℝ) + 2) 2 = 3 := by
    rw [com_y, hsy, htot]
    norm_num
  have hdist : com_dist wimg ((0:ℝ) + 0) ((2:ℝ) + 2) 2 0 2 = 1 := by
    rw [com_dist, hcx, hcy, show ((0:ℝ) - 0) ^ 2 + ((3:ℝ) - 2) ^ 2 = 1 by norm_num]
    exact Real.sqrt_one
  simp only [find_tip_with_com]
  rw [if_neg (by rw [hx0, hx1]; norm_num), if_neg (by rw [htot]; norm_num),
    if_neg (by rw [hdist]; norm_num), hcx, hcy, hdist]
  norm_num

lemma track_wimg :
    track_segments wimg 2 2 2 (some 0) (some 0) (some 0) (some 2)
      = .ok ([(some 0, some 2), (some 0, some 4)],
          [rn_atan2 (some 0) (some 2), rn_atan2 (some 0) (some 2)], false) := by
  rw [track_segments, find_tip_wimg1]
  simp only
  rw [if_neg (by rw [is_neg_some]; norm_num), track_segments, find_tip_wimg2]
  simp only
  rw [if_neg (by rw [is_neg_some]; norm_num), track_segments]

lemma tracking_wimg :
    center_of_mass_based_tracking wimg (0, 0) (0, 4) 2 2
      = .ok ([(some 0, some 0), (some 0, some 2), (some 0, some 4)],
          [rn_atan2 (some 0) (some 2), rn_atan2 (some 0) (some 2)], false) := by
  have hlseg : Real.sqrt 16 / (2 : ℝ) = 2 := by
    rw [show (16:ℝ) = 4 ^ 2 by norm_num, Real.sqrt_sq (by norm_num)]
    norm_num
  unfold center_of_mass_based_tracking
  norm_num
  rw [hlseg, track_wimg]

/-- Witness for the amended C2: the vertical-line image `wimg` with base
`(0, 0)`, tip `(0, 4)`, two segments, radius 2: the run completes without
break, every returned position is finite, and consecutive positions
`(0,0), (0,2), (0,4)` are each at distance `|tip - base| / 2 = 2`. -/

theorem tracking_fixed_segment_length_witness :
    (1 ≤ 2 ∧
     center_of_mass_based_tracking wimg (0, 0) (0, 4) 2 2
       = .ok ([(some 0, some 0), (some 0, some 2), (some 0, some 4)],
           [rn_atan2 (some 0) (some 2), rn_atan2 (some 0) (some 2)], false) ∧
     (∀ p ∈ [((some 0 : RN), (some 0 : RN)), (some 0, some 2), (some 0, some 4)],
       ∃ a b, p = (some a, some b))) ∧
    chainDist (Real.sqrt (((0:ℝ) - 0) ^ 2 + ((4:ℝ) - 0) ^ 2) / ((2:ℕ) : ℝ))
      [(some 0, some 0), (some 0, some 2), (some 0, some 4)] :=
  ⟨⟨by norm_num, tracking_wimg, by
      intro p hp
      simp only [List.mem_cons, List.not_mem_nil, or_false] at hp
      rcases hp with rfl | rfl | rfl
      exacts [⟨0, 0, rfl⟩, ⟨0, 2, rfl⟩, ⟨0, 4, rfl⟩]⟩,
    tracking_fixed_segment_length wimg (0, 0) (0, 4) 2 2
      [(some 0, some 0), (some 0, some 2), (some 0, some 4)]
      [rn_atan2 (some 0) (some 2), rn_atan2 (some 0) (some 2)]
      (by norm_num) tracking_wimg (by
        intro p hp
        simp only [List.mem_cons, List.not_mem_nil, or_false] at hp
        rcases hp with rfl | rfl | rfl
        exacts [⟨0, 0, rfl⟩, ⟨0, 2, rfl⟩, ⟨0, 4, rfl⟩])⟩

/-! ### Shape lemmas and claims C10, C4 -/

lemma getLast?_replicate_succ {α : Type} (n : ℕ) (a : α) :
    (List.replicate (n + 1) a).getLast? = some a := by
  induction n with
  | zero => rfl
  | succ m ih =>
    rw [List.replicate_succ, List.replicate_succ, List.getLast?_cons_cons,
      ← List.replicate_succ]
    exact ih

lemma track_segments_shape (image : Img) (radius lseg : ℝ) :
    ∀ (k : ℕ) (bx by' dx dy : RN) (segs : List (RN × RN)) (angs : List RN) (broke : Bool),
      track_segments image radius lseg k bx by' dx dy = .ok (segs, angs, broke) →
      segs.length = k ∧ angs.length = k ∧ (broke = true → angs.getLast? = some none) := by
  intro k
  induction k with
  | zero =>
    intro bx by' dx dy segs angs broke h
    rw [track_segments] at h
    simp only [Except.ok.injEq, Prod.mk.injEq] at h
    obtain ⟨h1, h2, h3⟩ := h
    rw [← h1, ← h2]
    exact ⟨rfl, rfl, fun hb => absurd (h3 ▸ hb) (by simp)⟩
  | succ m ih =>
    intro bx by' dx dy segs angs broke h
    rw [track_segments] at h
    cases hft : find_tip_with_com image bx by' dx dy lseg radius with
    | error e =>
      rw [hft] at h
      exact absurd h (by simp)
    | ok out =>
      obtain ⟨bx', by2, dx', dy'⟩ := out
      rw [hft] at h
      simp only at h
      by_cases hneg : is_neg bx'
      · rw [if_pos hneg] at h
        simp only [Except.ok.injEq, Prod.mk.injEq] at h
        obtain ⟨h1, h2, h3⟩ := h
        rw [← h1, ← h2]
        exact ⟨by simp, by simp, fun _ => getLast?_replicate_succ m none⟩
      · rw [if_neg hneg] at h
        cases hrec : track_segments image radius lseg m bx' by2 dx' dy' with
        | error e =>
          rw [hrec] at h
          exact absurd h (by simp)
        | ok out2 =>
          obtain ⟨segs', angs', broke'⟩ := out2
          rw [hrec] at h
          simp only [Except.ok.injEq, Prod.mk.injEq] at h
          obtain ⟨h1, h2, h3⟩ := h
          obtain ⟨l1, l2, l3⟩ := ih bx' by2 dx' dy' segs' angs' broke' hrec
          rw [← h1, ← h2]
          refine ⟨by simp [l1], by simp [l2], fun hb => ?_⟩
          have hlast : angs'.getLast? = some none := l3 (h3 ▸ hb)
          cases angs' with
          | nil => exact absurd hlast (by simp)
          | cons a t => rw [List.getLast?_cons_cons]; exact hlast

lemma tracking_result_shape (img : Img) (base tip : ℝ × ℝ) (n : ℕ) (radius : ℝ)
    (segs : List (RN × RN)) (angs : List RN) (broke : Bool)
    (h : center_of_mass_based_tracking img base tip n radius = .ok (segs, angs, broke)) :
    segs.length = n + 1 ∧ angs.length = n ∧ (broke = true → angs.getLast? = some none) := by
  unfold center_of_mass_based_tracking at h
  cases hts : track_segments img radius
      (Real.sqrt ((tip.1 - base.1) ^ 2 + (tip.2 - base.2) ^ 2) / n) n
      (some base.1) (some base.2)
      (some ((tip.1 - base.1) / n)) (some ((tip.2 - base.2) / n)) with
  | error e =>
    rw [hts] at h
    exact absurd h (by simp)
  | ok out =>
    obtain ⟨segs0, angs0, broke0⟩ := out
    rw [hts] at h
    simp only [Except.ok.injEq, Prod.mk.injEq] at h
    obtain ⟨h1, h2, h3⟩ := h
    obtain ⟨l1, l2, l3⟩ := track_segments_shape img radius _ n _ _ _ _ segs0 angs0 broke0 hts
    rw [← h1, ← h2]
    exact ⟨by simp [l1], l2, fun hb => l3 (h3 ▸ hb)⟩

/-- C10: whenever the tracking returns a segment array (shape
`2 × (n_segments + 1)`), writing it into the fixed `2 × 10` shared
segment region succeeds exactly when `n_segments ≤ 9`; for
`n_segments ≥ 10` the NumPy slice keeps 10 columns while the source has
`n_segments + 1 ≥ 11`, and the assignment fails with a shape-mismatch
error — even though the parameter contract places no bound on
`n_segments`. -/

theorem segment_write_needs_nine (img : Img) (base tip : ℝ × ℝ) (n : ℕ) (radius : ℝ)
    (segs : List (RN × RN)) (angs : List RN) (broke : Bool) (buf : List (RN × RN))
    (hok : center_of_mass_based_tracking img base tip n radius = .ok (segs, angs, broke)) :
    (write_segments n segs buf).isSome ↔ n ≤ 9 := by
  have hlen : segs.length = n + 1 :=
    (tracking_result_shape img base tip n radius segs angs broke hok).1
  unfold write_segments
  rw [hlen]
  by_cases hn : n ≤ 9
  · rw [show min (n + 1) 10 = n + 1 by omega, if_pos rfl]
    simp [hn]
  · rw [show min (n + 1) 10 = 10 by omega, if_neg (by omega)]
    simp [hn]

/-- Witness for C10: on the all-zero image with `n_segments = 10` the
write into the 2×10 region fails (`isSome ↔ 10 ≤ 9`), and with
`n_segments = 9` it succeeds (`isSome ↔ 9 ≤ 9`). -/

theorem segment_write_needs_nine_witness :
    (center_of_mass_based_tracking zimg (1, 1) (3, 1) 10 1
       = .ok ((some 1, some 1) :: List.replicate 10 (none, none),
           List.replicate 10 none, true) ∧
     ((write_segments 10 ((some 1, some 1) :: List.replicate 10 (none, none))
        (List.replicate 10 ((some 0 : RN), (some 0 : RN)))).isSome ↔ 10 ≤ 9)) ∧
    ((write_segments 9 ((some 1, some 1) :: List.replicate 9 (none, none))
        (List.replicate 10 ((some 0 : RN), (some 0 : RN)))).isSome ↔ 9 ≤ 9) :=
  ⟨⟨tracking_zero_image zimg (fun _ _ => rfl) (1, 1) (3, 1) 10 1 (by norm_num),
    segment_write_needs_nine zimg (1, 1) (3, 1) 10 1
      ((some 1, some 1) :: List.replicate 10 (none, none)) (List.replicate 10 none) true
      (List.replicate 10 ((some 0 : RN), (some 0 : RN)))
      (tracking_zero_image zimg (fun _ _ => rfl) (1, 1) (3, 1) 10 1 (by norm_num))⟩,
    segment_write_needs_nine zimg (1, 1) (3, 1) 9 1
      ((some 1, some 1) :: List.replicate 9 (none, none)) (List.replicate 9 none) true
      (List.replicate 10 ((some 0 : RN), (some 0 : RN)))
      (tracking_zero_image zimg (fun _ _ => rfl) (1, 1) (3, 1) 9 1 (by norm_num))⟩

lemma rnSub_none_left (x : RN) : rnSub none x = none := rfl

/-- C4 amended: an iteration whose tail-tracking chain terminated early
is handled without any indexing error whenever `1 ≤ n_segments ≤ 9` and
the ring index is in range — `angles[-1]` and `angles[0]` always exist
because the angle array has fixed length `n_segments` with NaN fill — but
the iteration then writes `d_angle = angles[-1] - angles[0] = NaN`
together with the frame's timestamp into the shared angle-history ring
buffer: a garbage (invalid) deflection value does get stored for that
frame. -/

theorem track_iteration_early_break (p : TrackParams) (processed_frame : Img) (timestamp : ℝ)
    (segment_buf : List (RN × RN)) (angle_history : List (RN × ℝ)) (ii : ℕ)
    (conn : TrackerConn) (send_fails : Bool) (segs : List (RN × RN)) (angs : List RN)
    (hn : 1 ≤ p.n_segments) (hn9 : p.n_segments ≤ 9) (hii : ii < angle_history.length)
    (hok : center_of_mass_based_tracking processed_frame (p.base_x, p.base_y)
      (p.tip_x, p.tip_y) p.n_segments p.search_area = .ok (segs, angs, true)) :
    track_iteration p processed_frame timestamp segment_buf angle_history ii conn send_fails
      = .ok (segs ++ segment_buf.drop (min (p.n_segments + 1) 10),
          angle_history.set ii (none, timestamp),
          (ii + 1) % p.angle_trace_length,
          send_angle_through_pipe conn send_fails) := by
  obtain ⟨h1, h2, h3⟩ := tracking_result_shape processed_frame (p.base_x, p.base_y)
    (p.tip_x, p.tip_y) p.n_segments p.search_area segs angs true hok
  have hlast : angs.getLast? = some none := h3 rfl
  obtain ⟨a0, hhead⟩ : ∃ a0, angs.head? = some a0 := by
    cases angs with
    | nil => simp only [List.length_nil] at h2; omega
    | cons a t => exact ⟨a, rfl⟩
  have hwrite : write_segments p.n_segments segs segment_buf
      = some (segs ++ segment_buf.drop (min (p.n_segments + 1) 10)) := by
    unfold write_segments
    rw [h1, show min (p.n_segments + 1) 10 = p.n_segments + 1 by omega, if_pos rfl,
      show p.n_segments + 1 = min (p.n_segments + 1) 10 by omega]
  unfold track_iteration
  rw [hok]
  simp only
  rw [hlast, hhead]
  simp only
  rw [hwrite]
  simp only
  rw [if_pos hii, rnSub_none_left]

/-- Witness for the amended C4: the all-zero image with the concrete
parameter snapshot `c4Params` (2 segments), ring buffer of length 3,
index 0, timestamp 7. -/

theorem track_iteration_early_break_witness :
    (1 ≤ c4Params.n_segments ∧ c4Params.n_segments ≤ 9 ∧
      0 < ([((some 0 : RN), (0:ℝ)), (some 0, 0), (some 0, 0)] : List (RN × ℝ)).length ∧
      center_of_mass_based_tracking zimg (c4Params.base_x, c4Params.base_y)
        (c4Params.tip_x, c4Params.tip_y) c4Params.n_segments c4Params.search_area
        = .ok ((some c4Params.base_x, some c4Params.base_y) ::
            List.replicate c4Params.n_segments (none, none),
            List.replicate c4Params.n_segments none, true)) ∧
    track_iteration c4Params zimg 7 (List.replicate 10 (some 0, some 0))
        [((some 0 : RN), (0:ℝ)), (some 0, 0), (some 0, 0)] 0 ⟨false, false, false⟩ false
      = .ok (((some c4Params.base_x, some c4Params.base_y) ::
            List.replicate c4Params.n_segments (none, none))
            ++ (List.replicate 10 ((some 0 : RN), (some 0 : RN))).drop
              (min (c4Params.n_segments + 1) 10),
          ([((some 0 : RN), (0:ℝ)), (some 0, 0), (some 0, 0)] : List (RN × ℝ)).set 0 (none, 7),
          (0 + 1) % c4Params.angle_trace_length,
          send_angle_through_pipe ⟨false, false, false⟩ false) :=
  ⟨⟨by norm_num [c4Params], by norm_num [c4Params], by norm_num,
      tracking_zero_image zimg (fun _ _ => rfl) (c4Params.base_x, c4Params.base_y)
        (c4Params.tip_x, c4Params.tip_y) c4Params.n_segments c4Params.search_area
        (by norm_num [c4Params])⟩,
    track_iteration_early_break c4Params zimg 7 (List.replicate 10 (some 0, some 0))
      [((some 0 : RN), (0:ℝ)), (some 0, 0), (some 0, 0)] 0 ⟨false, false, false⟩ false
      ((some c4Params.base_x, some c4Params.base_y) ::
        List.replicate c4Params.n_segments (none, none))
      (List.replicate c4Params.n_segments none)
      (by norm_num [c4Params]) (by norm_num [c4Params]) (by norm_num)
      (tracking_zero_image zimg (fun _ _ => rfl) (c4Params.base_x, c4Params.base_y)
        (c4Params.tip_x, c4Params.tip_y) c4Params.n_segments c4Params.search_area
        (by norm_num [c4Params]))⟩

/-- Counterexample to C4 as stated: on the all-zero image (chain breaks at
the first segment, so the returned angles are all NaN) the tracking
iteration completes without indexing error but stores the garbage
deflection NaN — paired with the real timestamp 7 — into slot 0 of the
shared angle-history ring buffer, corrupting it for that frame. -/

theorem track_iteration_nan_write_counterexample :
    track_iteration c4Params zimg 7 (List.replicate 10 (some 0, some 0))
        [((some 0 : RN), (0:ℝ)), (some 0, 0), (some 0, 0)] 0 ⟨false, false, false⟩ false
      = .ok ([(some 1, some 1), (none, none), (none, none),
            (some 0, some 0), (some 0, some 0), (some 0, some 0), (some 0, some 0),
            (some 0, some 0), (some 0, some 0), (some 0, some 0)],
          [(none, 7), (some 0, 0), (some 0, 0)], 1, ⟨false, false, false⟩) ∧
    (([(none, 7), ((some 0 : RN), (0:ℝ)), (some 0, 0)].getD 0 (some 0, 0)).1 = none ∧
      ([(none, 7), ((some 0 : RN), (0:ℝ)), (some 0, 0)].getD 0 (some 0, 0)).2 = 7) := by
  constructor
  · unfold track_iteration
    rw [tracking_zero_image zimg (fun _ _ => rfl) (c4Params.base_x, c4Params.base_y)
      (c4Params.tip_x, c4Params.tip_y) c4Params.n_segments c4Params.search_area
      (by norm_num [c4Params])]
    simp only [c4Params]
    norm_num [write_segments, send_angle_through_pipe, List.set]
    rfl
  · exact ⟨rfl, rfl⟩

/-! ### Estimator lemmas and claim C6 -/

/-- C6 amended: on any estimator state with a nonnegative bias window,
(1) whenever an update leaves the pending-bias flag set (the bias window
has not yet elapsed), the `bias` field is left unchanged by that update —
it equals `0.0` only if it was already `0.0`, as is the case when the
flag was first raised from an idle state; and (2) once the flag is clear,
any update that does not itself start a new pending computation resets
`bias` to `0.0` — the computed bias survives only until the next
`update_swim_estimate` call, not until the next bout. -/

theorem update_bias_spec (s : Estimator) (hbw : 0 ≤ s.bias_window) :
    ((update_swim_estimate s).bias_calc_pending = true →
      (update_swim_estimate s).bias = s.bias) ∧
    (s.bias_calc_pending = false → (update_swim_estimate s).bias_calc_pending = false →
      (update_swim_estimate s).bias = 0) := by
  constructor
  · intro hres
    unfold update_swim_estimate at hres ⊢
    by_cases hp : est_pending1 s = true
    · rw [if_pos hp] at hres ⊢
      by_cases he : est_onset_t1 s + s.bias_window < est_last_t s
      · rw [if_pos he] at hres
        simp at hres
      · rw [if_neg he]
    · rw [if_neg hp] at hres
      simp at hres
  · intro hpend hres
    unfold update_swim_estimate at hres ⊢
    by_cases hp : est_pending1 s = true
    · exfalso
      have hcond : est_onset_cond s := by
        by_contra hc
        unfold est_pending1 at hp
        rw [if_neg hc] at hp
        rw [hp] at hpend
        exact Bool.noConfusion hpend
      have honset : est_onset_t1 s = est_last_t s := by
        unfold est_onset_t1
        rw [if_pos hcond]
      have hnelapsed : ¬ est_onset_t1 s + s.bias_window < est_last_t s := by
        rw [honset]
        intro hlt
        nlinarith
      rw [if_pos hp, if_neg hnelapsed] at hres
      simp at hres
    · rw [if_neg hp]

lemma c6_registers :
    register_new_data (register_new_data (register_new_data (register_new_data
      (Estimator.init 4 1 1 1 (1/2)) 1 10) 2 10) 3 9) (7/2) 11 = c6A := by
  rfl

lemma c6_update1 : update_swim_estimate c6A = c6B := by
  have hlt : est_last_t c6A = 7/2 := rfl
  have hsel : maskSelect (fun t => est_last_t c6A - c6A.vigor_window < t)
      (c6A.timestamp_buffer.zip c6A.angle_buffer) = [9, 11] := by
    simp only [hlt]
    norm_num [maskSelect, c6A]
  have hvig : est_vigor c6A = 1 := by
    unfold est_vigor
    rw [hsel]
    have hm : listMean [9, 11] = 10 := by norm_num [listMean]
    unfold listStd
    rw [hm]
    norm_num [listMean]
  have hcond : est_onset_cond c6A := by
    unfold est_onset_cond
    rw [hvig]
    norm_num [c6A]
  have hpend : est_pending1 c6A = true := by
    unfold est_pending1
    rw [if_pos hcond]
  have honset : est_onset_t1 c6A = 7/2 := by
    unfold est_onset_t1
    rw [if_pos hcond, hlt]
  have hib : est_in_bout2 c6A = true := by
    unfold est_in_bout2 est_in_bout1
    rw [hvig, if_pos hcond, if_neg (by norm_num [c6A])]
  unfold update_swim_estimate
  rw [if_pos hpend, if_neg (by rw [honset, hlt]; norm_num [c6A]), hvig, hib, honset]
  rfl

lemma c6_register5 : register_new_data c6B 5 8 = c6C := by
  rfl

lemma c6_update2 : update_swim_estimate c6C = c6D := by
  have hlt : est_last_t c6C = 5 := rfl
  have hsel : maskSelect (fun t => est_last_t c6C - c6C.vigor_window < t)
      (c6C.timestamp_buffer.zip c6C.angle_buffer) = [8] := by
    simp only [hlt]
    norm_num [maskSelect, c6C]
  have hvig : est_vigor c6C = 0 := by
    unfold est_vigor
    rw [hsel]
    unfold listStd
    norm_num [listMean]
  have hcond : ¬ est_onset_cond c6C := by
    unfold est_onset_cond
    simp [c6C]
  have hpend : est_pending1 c6C = true := by
    unfold est_pending1
    rw [if_neg hcond]
    rfl
  have honset : est_onset_t1 c6C = 7/2 := by
    unfold est_onset_t1
    rw [if_neg hcond]
    rfl
  have hib : est_in_bout2 c6C = false := by
    unfold est_in_bout2
    rw [hvig, if_pos (by norm_num [c6C])]
  have hbias : est_bias_value c6C = -3 := by
    unfold est_bias_value
    simp only [hlt]
    have h1 : maskSelect (fun t => 5 - c6C.bias_window < t)
        (c6C.timestamp_buffer.zip c6C.angle_buffer) = [8] := by
      norm_num [maskSelect, c6C]
    have h2 : maskSelect (fun t => 5 - c6C.bias_window - c6C.bias_baseline_window < t ∧
        t < 5 - c6C.bias_window) (c6C.timestamp_buffer.zip c6C.angle_buffer) = [11] := by
      norm_num [maskSelect, c6C]
    rw [h1, h2]
    norm_num [listMean]
  unfold update_swim_estimate
  rw [if_pos hpend, if_pos (by rw [honset, hlt]; norm_num [c6C]), hvig, hib, honset, hbias]
  rfl

lemma c6_update3 : update_swim_estimate c6D = c6E := by
  have hlt : est_last_t c6D = 5 := rfl
  have hsel : maskSelect (fun t => est_last_t c6D - c6D.vigor_window < t)
      (c6D.timestamp_buffer.zip c6D.angle_buffer) = [8] := by
    simp only [hlt]
    norm_num [maskSelect, c6D]
  have hvig : est_vigor c6D = 0 := by
    unfold est_vigor
    rw [hsel]
    unfold listStd
    norm_num [listMean]
  have hcond : ¬ est_onset_cond c6D := by
    unfold est_onset_cond
    rw [hvig]
    norm_num [c6D]
  have hpend : est_pending1 c6D = false := by
    unfold est_pending1
    rw [if_neg hcond]
    rfl
  have honset : est_onset_t1 c6D = 7/2 := by
    unfold est_onset_t1
    rw [if_neg hcond]
    rfl
  have hib : est_in_bout2 c6D = false := by
    unfold est_in_bout2
    rw [hvig, if_pos (by norm_num [c6D])]
  unfold update_swim_estimate
  rw [if_neg (by rw [hpend]; exact Bool.false_ne_true), hvig, hib, honset]
  rfl

/-- Counterexample to C6 as stated: in a concrete run from a fresh
estimator (buffer 4, windows 1, threshold 1/2) a bout raises the pending
flag at `t = 7/2`; at `t = 5` the window has elapsed and the update
computes `bias = -3`, clearing the flag; at the very next
`update_swim_estimate` call — with no new bout beginning (`in_bout` stays
false and `bout_onset_t` unchanged) — the `bias` field is reset to `0`
instead of retaining the computed value `-3`. -/

theorem bias_not_retained_counterexample :
    register_new_data (register_new_data (register_new_data (register_new_data
      (Estimator.init 4 1 1 1 (1/2)) 1 10) 2 10) 3 9) (7/2) 11 = c6A ∧
    update_swim_estimate c6A = c6B ∧
    register_new_data c6B 5 8 = c6C ∧
    update_swim_estimate c6C = c6D ∧
    update_swim_estimate c6D = c6E ∧
    (c6D.bias_calc_pending = false ∧ c6D.bias = -3) ∧
    (c6E.bias = 0 ∧ c6E.bout_onset_t = c6D.bout_onset_t ∧ c6E.in_bout = false ∧
      c6E.bias ≠ c6D.bias) := by
  refine ⟨c6_registers, c6_update1, c6_register5, c6_update2, c6_update3,
    ⟨rfl, rfl⟩, rfl, rfl, rfl, ?_⟩
  norm_num [c6D, c6E]

/-- Witness for the amended C6: the state `c6D` (bias just computed,
pending flag clear) satisfies both conjuncts of the amended claim. -/

theorem update_bias_spec_witness :
    0 ≤ c6D.bias_window ∧
    (((update_swim_estimate c6D).bias_calc_pending = true →
        (update_swim_estimate c6D).bias = c6D.bias) ∧
      (c6D.bias_calc_pending = false → (update_swim_estimate c6D).bias_calc_pending = false →
        (update_swim_estimate c6D).bias = 0)) :=
  ⟨by norm_num [c6D], update_bias_spec c6D (by norm_num [c6D])⟩

end MiniZFVR
